import Mathlib

/-!
Verification development for the AutoSyncClaude repository.

Each Rust component relevant to the checked claims is shallowly embedded as
executable Lean definitions, translated from the source files:

* `src/client/src/rules.rs`    — rule engine (`RuleEngine::should_sync`, glob matching)
* `src/client/src/conflict.rs` — conflict resolver (`merge_text`, JSON merge)
* `src/client/src/retry.rs`    — retry config/executor, offline queue
* `src/client/src/error.rs`    — client error taxonomy and retryability
* `src/client/src/token.rs`    — token at-rest encryption framing (base64, nonce)
* `src/server/src/storage.rs`  — object-storage upload and content-addressed paths
* `src/client/src/watcher.rs`  — per-path debouncing of filesystem events

External crates (glob's `Pattern`, `serde_json` parsing, `aes-gcm`, `sha2`,
`rand`, tokio timers) are modelled as follows: the glob pattern language is
implemented concretely after the crate's documented compile/match semantics;
cryptographic primitives and parsers are abstracted as explicit function
parameters; randomness and time become explicit arguments.
-/

namespace AutoSync

/-! ## Rule engine (src/client/src/rules.rs) -/

/-- Rust enum `RuleType` (rules.rs): include vs exclude rules. -/
inductive RuleType where
  | Include
  | Exclude
deriving DecidableEq, Repr

/-- Rust enum `PatternType` (rules.rs): glob vs regular-expression patterns. -/
inductive PatternType where
  | Glob
  | Regex
deriving DecidableEq, Repr

/-- Rust struct `SyncRule` (rules.rs). `priority` is an `i32` in the source;
it is modelled as `Int` (the sentinel `i32::MIN` is kept explicit below). -/
structure SyncRule where
  id : String
  name : String
  rule_type : RuleType
  pattern : String
  pattern_type : PatternType
  file_type : Option String
  priority : Int
  enabled : Bool
  description : Option String
deriving DecidableEq, Repr

/-- `i32::MIN`, the initial value of `highest_priority` in `should_sync`. -/
def i32MIN : Int := -(2 ^ 31)

/-- One entry of a glob character class (`glob::CharSpecifier`). -/
inductive CharSpecifier where
  | single (c : Char)
  | range (lo hi : Char)
deriving DecidableEq, Repr

/-- Tokens of a compiled glob pattern (`glob::PatternToken`). -/
inductive GlobToken where
  | char (c : Char)
  | anyChar
  | anySeq
  | anyRecursive
  | anyWithin (specs : List CharSpecifier)
  | anyExcept (specs : List CharSpecifier)
deriving DecidableEq, Repr

/-- Character-class body parsing (`glob::parse_char_specifiers`): `a-b` makes a
range when at least three characters remain, otherwise single characters. -/
def parseSpecs : List Char → List CharSpecifier
  | c :: '-' :: d :: rest => CharSpecifier.range c d :: parseSpecs rest
  | c :: rest => CharSpecifier.single c :: parseSpecs rest
  | [] => []

/-- Scan a character-class body for its closing bracket, returning the content
before it and the remainder after it; `none` when the class is unclosed. -/
def scanClass : List Char → Option (List Char × List Char)
  | [] => none
  | c :: rest =>
    if c = ']' then some ([], rest)
    else
      match scanClass rest with
      | some (content, r) => some (c :: content, r)
      | none => none

theorem scanClass_rest_length : ∀ (l content rest : List Char),
    scanClass l = some (content, rest) → rest.length < l.length := by
  intro l
  induction l with
  | nil => intro content rest h; simp [scanClass] at h
  | cons c cs ih =>
    intro content rest h
    simp only [scanClass] at h
    split at h
    · cases h
      simp
    · split at h
      · rename_i content' r' hsc
        cases h
        have := ih content' rest hsc
        simp
        omega
      · exact Option.noConfusion h

/-- Glob pattern compilation, after `glob::Pattern::new` (glob crate):
`?` and `*` wildcards, `**` only as a whole path component, `[...]`/`[!...]`
character classes; malformed patterns (`***`, misplaced `**`, unclosed class)
fail to compile. The boolean argument records whether the previous character
was a path separator (or the start of the pattern). -/
def globCompileAux : Bool → List Char → Option (List GlobToken)
  | _, [] => some []
  | _, '?' :: rest =>
    match globCompileAux false rest with
    | some ts => some (GlobToken.anyChar :: ts)
    | none => none
  | _, '*' :: '*' :: '*' :: _ => none
  | prevSep, '*' :: '*' :: [] =>
    if prevSep then some [GlobToken.anyRecursive] else none
  | prevSep, '*' :: '*' :: '/' :: rest3 =>
    if prevSep then
      match globCompileAux true rest3 with
      | some ts => some (GlobToken.anyRecursive :: ts)
      | none => none
    else none
  | _, '*' :: '*' :: _ :: _ => none
  | _, '*' :: rest =>
    match globCompileAux false rest with
    | some ts => some (GlobToken.anySeq :: ts)
    | none => none
  | _, '[' :: '!' :: c :: rest2 =>
    match h : scanClass rest2 with
    | some (content, rest3) =>
      match globCompileAux false rest3 with
      | some ts => some (GlobToken.anyExcept (parseSpecs (c :: content)) :: ts)
      | none => none
    | none => none
  | _, '[' :: c :: rest2 =>
    match h : scanClass rest2 with
    | some (content, rest3) =>
      match globCompileAux false rest3 with
      | some ts => some (GlobToken.anyWithin (parseSpecs (c :: content)) :: ts)
      | none => none
    | none => none
  | _, ['['] => none
  | _, c :: rest =>
    match globCompileAux (c = '/') rest with
    | some ts => some (GlobToken.char c :: ts)
    | none => none
termination_by _ s => s.length
decreasing_by
  all_goals simp_wf
  all_goals first
    | omega
    | (have hlt := scanClass_rest_length _ _ _ h; omega)

/-- `glob::Pattern::new` on the pattern string. -/
def globCompile (pattern : String) : Option (List GlobToken) :=
  globCompileAux true pattern.data

/-- Does a character satisfy a character-class body? -/
def specMatch (specs : List CharSpecifier) (c : Char) : Bool :=
  specs.any fun s =>
    match s with
    | CharSpecifier.single d => c = d
    | CharSpecifier.range lo hi => lo ≤ c && c ≤ hi

/-- Glob matching with the crate's default `MatchOptions` (case sensitive,
separators not required to be literal), after `glob::Pattern::matches_path`. -/
def globMatch : List GlobToken → List Char → Bool
  | [], s => s.isEmpty
  | GlobToken.char _ :: _, [] => false
  | GlobToken.char c :: ts, x :: xs => c = x && globMatch ts xs
  | GlobToken.anyChar :: _, [] => false
  | GlobToken.anyChar :: ts, _ :: xs => globMatch ts xs
  | GlobToken.anyWithin _ :: _, [] => false
  | GlobToken.anyWithin specs :: ts, x :: xs => specMatch specs x && globMatch ts xs
  | GlobToken.anyExcept _ :: _, [] => false
  | GlobToken.anyExcept specs :: ts, x :: xs => !specMatch specs x && globMatch ts xs
  | GlobToken.anySeq :: ts, s =>
    globMatch ts s ||
      match s with
      | [] => false
      | _ :: xs => globMatch (GlobToken.anySeq :: ts) xs
  | GlobToken.anyRecursive :: ts, s =>
    globMatch ts s ||
      match s with
      | [] => false
      | _ :: xs => globMatch (GlobToken.anyRecursive :: ts) xs
termination_by ts s => (ts.length, s.length)
decreasing_by
  all_goals simp_wf
  all_goals first
    | omega
    | (apply Prod.Lex.left; omega)
    | (apply Prod.Lex.right; omega)

/-- The `regex` crate is external to the repository: a regex engine is any
compiler from pattern strings to matchers, failing on malformed patterns. -/
structure RegexEngine where
  compile : String → Option (String → Bool)

/-- `RuleEngine::match_pattern` (rules.rs lines 153–173): compile the pattern
and match the path; a pattern that fails to compile matches nothing. -/
def match_pattern (eng : RegexEngine) (pattern_type : PatternType)
    (pattern : String) (path : String) : Bool :=
  match pattern_type with
  | PatternType.Glob =>
    match globCompile pattern with
    | some g => globMatch g path.data
    | none => false
  | PatternType.Regex =>
    match eng.compile pattern with
    | some re => re path
    | none => false

/-- The enabled/file-type/pattern conditions under which a rule participates in
the `should_sync` scan (rules.rs lines 110–129). -/
def ruleApplies (eng : RegexEngine) (rule : SyncRule) (path : String)
    (file_type : Option String) : Bool :=
  rule.enabled &&
    (match rule.file_type with
     | some rft =>
       match file_type with
       | some ft => rft = ft
       | none => false
     | none => true) &&
    match_pattern eng rule.pattern_type rule.pattern path

/-- One iteration of the `should_sync` loop body (rules.rs lines 110–147). -/
def shouldSyncStep (eng : RegexEngine) (path : String) (file_type : Option String)
    (st : Bool × Int) (rule : SyncRule) : Bool × Int :=
  if ruleApplies eng rule path file_type && rule.priority > st.2 then
    (rule.rule_type = RuleType.Include, rule.priority)
  else st

/-- `RuleEngine::should_sync` (rules.rs lines 106–150): default verdict
`true`, `highest_priority` starts at `i32::MIN`, a matching enabled rule whose
priority strictly exceeds the current winner overrides the verdict. -/
def should_sync (eng : RegexEngine) (rules : List SyncRule) (path : String)
    (file_type : Option String) : Bool :=
  (rules.foldl (shouldSyncStep eng path file_type) (true, i32MIN)).1

/-- The rule whose verdict survives the `should_sync` scan started at running
priority `hp`: the first applicable rule that strictly beats `hp` and is never
strictly beaten afterwards. -/
def winner (eng : RegexEngine) (path : String) (ft : Option String) (hp : Int) :
    List SyncRule → Option SyncRule
  | [] => none
  | r :: rest =>
    if ruleApplies eng r path ft && r.priority > hp then
      match winner eng path ft r.priority rest with
      | some w => some w
      | none => some r
    else winner eng path ft hp rest

/-- The running maximum priority of the scan, seeded with `hp`. -/
def runMax (eng : RegexEngine) (path : String) (ft : Option String) (hp : Int)
    (rules : List SyncRule) : Int :=
  rules.foldl (fun a r => if ruleApplies eng r path ft then max a r.priority else a) hp

/-- First element of `ms` whose priority is maximal in `ms`. -/
def firstMax (ms : List SyncRule) : Option SyncRule :=
  ms.find? fun r => ms.all fun s => decide (s.priority ≤ r.priority)

/-- The verdict as the specification sentence describes it: the inclusion flag
of the (first) highest-priority enabled matching rule, `true` when no enabled
rule matches. -/
def claimVerdict (eng : RegexEngine) (rules : List SyncRule) (path : String)
    (ft : Option String) : Bool :=
  match firstMax (rules.filter fun r => ruleApplies eng r path ft) with
  | some r => r.rule_type = RuleType.Include
  | none => true

theorem foldl_eq_winner (eng : RegexEngine) (path : String) (ft : Option String) :
    ∀ (rules : List SyncRule) (v : Bool) (hp : Int),
      rules.foldl (shouldSyncStep eng path ft) (v, hp) =
        (match winner eng path ft hp rules with
         | some w => ((w.rule_type = RuleType.Include : Bool), w.priority)
         | none => (v, hp)) := by
  intro rules
  induction rules with
  | nil => intro v hp; simp [winner]
  | cons r rest ih =>
    intro v hp
    by_cases h : (ruleApplies eng r path ft && r.priority > hp) = true
    · have hstep : shouldSyncStep eng path ft (v, hp) r =
          ((r.rule_type = RuleType.Include : Bool), r.priority) := by
        simp only [shouldSyncStep]
        rw [if_pos h]
      rw [List.foldl_cons, hstep, ih]
      simp only [winner]
      rw [if_pos h]
      cases winner eng path ft r.priority rest <;> simp
    · have hstep : shouldSyncStep eng path ft (v, hp) r = (v, hp) := by
        simp only [shouldSyncStep]
        rw [if_neg (by simpa using h)]
      rw [List.foldl_cons, hstep, ih]
      simp only [winner]
      rw [if_neg (by simpa using h)]

theorem runMax_cons (eng : RegexEngine) (path : String) (ft : Option String)
    (s : SyncRule) (rest : List SyncRule) (hp : Int) :
    runMax eng path ft hp (s :: rest) =
      runMax eng path ft
        (if ruleApplies eng s path ft then max hp s.priority else hp) rest := by
  by_cases hs : ruleApplies eng s path ft = true <;>
    simp [runMax, hs, List.foldl_cons]

theorem le_runMax (eng : RegexEngine) (path : String) (ft : Option String) :
    ∀ (rules : List SyncRule) (hp : Int), hp ≤ runMax eng path ft hp rules := by
  intro rules
  induction rules with
  | nil => intro hp; simp [runMax]
  | cons r rest ih =>
    intro hp
    rw [runMax_cons]
    by_cases h : ruleApplies eng r path ft = true
    · rw [if_pos h]
      exact le_trans (le_max_left _ _) (ih _)
    · rw [if_neg (by simpa using h)]
      exact ih hp

theorem runMax_bound (eng : RegexEngine) (path : String) (ft : Option String) :
    ∀ (rules : List SyncRule) (hp : Int) (r : SyncRule),
      r ∈ rules.filter (fun s => ruleApplies eng s path ft) →
        r.priority ≤ runMax eng path ft hp rules := by
  intro rules
  induction rules with
  | nil => intro hp r h; simp at h
  | cons s rest ih =>
    intro hp r h
    rw [runMax_cons]
    by_cases hs : ruleApplies eng s path ft = true
    · rw [if_pos hs]
      rw [List.filter_cons_of_pos (by exact hs)] at h
      rcases List.mem_cons.mp h with h | h
      · subst h
        exact le_trans (le_max_right _ _) (le_runMax eng path ft rest _)
      · exact ih (max hp s.priority) r h
    · rw [if_neg (by simpa using hs)]
      rw [List.filter_cons_of_neg (by simpa using hs)] at h
      exact ih hp r h

theorem runMax_attained (eng : RegexEngine) (path : String) (ft : Option String) :
    ∀ (rules : List SyncRule) (hp : Int), hp < runMax eng path ft hp rules →
      ∃ r ∈ rules.filter (fun s => ruleApplies eng s path ft),
        r.priority = runMax eng path ft hp rules := by
  intro rules
  induction rules with
  | nil => intro hp h; simp [runMax] at h
  | cons s rest ih =>
    intro hp h
    rw [runMax_cons] at h ⊢
    by_cases hs : ruleApplies eng s path ft = true
    · rw [if_pos hs] at h ⊢
      by_cases h2 : max hp s.priority < runMax eng path ft (max hp s.priority) rest
      · obtain ⟨r, hr, hrp⟩ := ih (max hp s.priority) h2
        exact ⟨r, by
          rw [List.filter_cons_of_pos (by exact hs)]
          exact List.mem_cons_of_mem _ hr, hrp⟩
      · have hle := le_runMax eng path ft rest (max hp s.priority)
        have heq : runMax eng path ft (max hp s.priority) rest = max hp s.priority :=
          le_antisymm (by omega) hle
        have hsp : max hp s.priority = s.priority := by
          rw [heq] at h
          omega
        exact ⟨s, by
          rw [List.filter_cons_of_pos (by exact hs)]
          exact List.mem_cons_self _ _, by rw [heq, hsp]⟩
    · rw [if_neg (by simpa using hs)] at h ⊢
      obtain ⟨r, hr, hrp⟩ := ih hp h
      exact ⟨r, by
        rw [List.filter_cons_of_neg (by simpa using hs)]
        exact hr, hrp⟩

theorem runMax_filter_nil (eng : RegexEngine) (path : String) (ft : Option String) :
    ∀ (rules : List SyncRule) (hp : Int),
      rules.filter (fun s => ruleApplies eng s path ft) = [] →
        runMax eng path ft hp rules = hp := by
  intro rules
  induction rules with
  | nil => intro hp _; simp [runMax]
  | cons s rest ih =>
    intro hp h
    by_cases hs : ruleApplies eng s path ft = true
    · rw [List.filter_cons_of_pos (by exact hs)] at h
      exact absurd h (by simp)
    · rw [List.filter_cons_of_neg (by simpa using hs)] at h
      rw [runMax_cons, if_neg (by simpa using hs)]
      exact ih hp h

theorem winner_eq_find (eng : RegexEngine) (path : String) (ft : Option String) :
    ∀ (rules : List SyncRule) (hp : Int),
      winner eng path ft hp rules =
        (if hp < runMax eng path ft hp rules then
          (rules.filter fun s => ruleApplies eng s path ft).find?
            (fun r => decide (r.priority = runMax eng path ft hp rules))
        else none) := by
  intro rules
  induction rules with
  | nil => intro hp; simp [winner, runMax]
  | cons r rest ih =>
    intro hp
    rw [runMax_cons]
    by_cases hr : ruleApplies eng r path ft = true
    · rw [if_pos hr]
      by_cases hp2 : hp < r.priority
      · have hmax : max hp r.priority = r.priority := by omega
        have hcond : (ruleApplies eng r path ft && r.priority > hp) = true := by
          simp only [hr, Bool.true_and, decide_eq_true_eq]
          omega
        simp only [winner]
        rw [if_pos hcond, ih r.priority, hmax]
        by_cases h3 : r.priority < runMax eng path ft r.priority rest
        · rw [if_pos h3]
          obtain ⟨w, hw, hwp⟩ := runMax_attained eng path ft rest r.priority h3
          have hfind : ((rest.filter fun s => ruleApplies eng s path ft).find?
              (fun x => decide (x.priority = runMax eng path ft r.priority rest))).isSome := by
            rw [List.find?_isSome]
            exact ⟨w, hw, by simpa using hwp⟩
          obtain ⟨w', hw'⟩ := Option.isSome_iff_exists.mp hfind
          rw [hw']
          rw [if_pos (lt_trans hp2 h3)]
          rw [List.filter_cons_of_pos (by exact hr)]
          rw [List.find?_cons_of_neg _ (by simp only [decide_eq_true_eq]; omega)]
          rw [hw']
        · have hle := le_runMax eng path ft rest r.priority
          have heq : runMax eng path ft r.priority rest = r.priority := by omega
          rw [if_neg h3]
          rw [if_pos (by omega)]
          rw [List.filter_cons_of_pos (by exact hr)]
          rw [List.find?_cons_of_pos _ (by simp only [heq, decide_eq_true_eq])]
      · have hcond : (ruleApplies eng r path ft && r.priority > hp) = false := by
          simp only [hr, Bool.true_and, decide_eq_false_iff_not]
          omega
        have hmax : max hp r.priority = hp := by omega
        simp only [winner]
        rw [if_neg (by simp [hcond]), ih hp, hmax]
        by_cases h3 : hp < runMax eng path ft hp rest
        · rw [if_pos h3, if_pos h3]
          rw [List.filter_cons_of_pos (by exact hr)]
          rw [List.find?_cons_of_neg _ (by simp only [decide_eq_true_eq]; omega)]
        · rw [if_neg h3, if_neg h3]
    · have hcond : (ruleApplies eng r path ft && r.priority > hp) = false := by
        simp [hr]
      simp only [winner]
      rw [if_neg (show ¬((ruleApplies eng r path ft && decide (r.priority > hp)) = true) by
        simp [hcond])]
      rw [ih hp, if_neg hr]
      rw [List.filter_cons_of_neg (by simpa using hr)]

theorem find?_congr_mem {α : Type} (p q : α → Bool) :
    ∀ (l : List α), (∀ x ∈ l, p x = q x) → l.find? p = l.find? q := by
  intro l
  induction l with
  | nil => intro _; simp
  | cons x xs ih =>
    intro h
    have hx := h x (List.mem_cons_self _ _)
    by_cases hp : p x = true
    · rw [List.find?_cons_of_pos _ hp, List.find?_cons_of_pos _ (hx ▸ hp)]
    · rw [List.find?_cons_of_neg _ (by simpa using hp),
        List.find?_cons_of_neg _ (by rw [← hx]; simpa using hp)]
      exact ih fun y hy => h y (List.mem_cons_of_mem _ hy)

/-- A regex engine on which every pattern fails to compile (usable wherever
the concrete rules only carry glob patterns). -/
def engNone : RegexEngine := ⟨fun _ => none⟩

/-- The include rule of the specification's rule-priority scenario. -/
def c1IncludeMd : SyncRule :=
  { id := "include-md", name := "include markdown", rule_type := RuleType.Include,
    pattern := "*.md", pattern_type := PatternType.Glob, file_type := none,
    priority := 0, enabled := true, description := none }

/-- The exclude rule of the specification's rule-priority scenario. -/
def c1ExcludeTemp : SyncRule :=
  { id := "exclude-temp", name := "exclude temp files", rule_type := RuleType.Exclude,
    pattern := "*-temp.md", pattern_type := PatternType.Glob, file_type := none,
    priority := 10, enabled := true, description := none }

/-- An enabled exclude-everything rule at priority exactly `i32::MIN`. -/
def minPriorityExclude : SyncRule :=
  { id := "min", name := "min priority exclude", rule_type := RuleType.Exclude,
    pattern := "*", pattern_type := PatternType.Glob, file_type := none,
    priority := i32MIN, enabled := true, description := none }

/-- C1 counterexample: an enabled, matching exclude rule whose priority is
exactly `i32::MIN` is the highest-priority matching rule, so the claim demands
verdict `false` (exclude); but `should_sync` starts its running maximum at
`i32::MIN` and only lets a rule win with a strictly greater priority, so the
rule never overrides the default and the code returns `true` (include). -/
theorem c1_counterexample_min_priority :
    should_sync engNone [minPriorityExclude] "a.md" none = true ∧
      claimVerdict engNone [minPriorityExclude] "a.md" none = false := by
  constructor
  · simp [should_sync, shouldSyncStep, ruleApplies, match_pattern, globCompile,
      globCompileAux, globMatch, minPriorityExclude, i32MIN]
  · simp [claimVerdict, firstMax, ruleApplies, match_pattern, globCompile,
      globCompileAux, globMatch, minPriorityExclude, i32MIN]

/-- C1 (amended): for every rule set and path, provided every enabled matching
rule has priority strictly above `i32::MIN` (the scan's sentinel — true of all
validated rules, whose priorities lie in [-100, 100]), `should_sync` returns
the inclusion flag of the first enabled matching rule of maximal priority
(`true` when no enabled rule matches); in particular, with rules
[include `*.md` priority 0, exclude `*-temp.md` priority 10], path
`test-temp.md` is excluded and `test.md` is included. -/
theorem c1_should_sync_highest_priority :
    (∀ (eng : RegexEngine) (rules : List SyncRule) (path : String) (ft : Option String),
      (∀ r ∈ rules, ruleApplies eng r path ft = true → i32MIN < r.priority) →
        should_sync eng rules path ft = claimVerdict eng rules path ft) ∧
      should_sync engNone [c1IncludeMd, c1ExcludeTemp] "test-temp.md" none = false ∧
      should_sync engNone [c1IncludeMd, c1ExcludeTemp] "test.md" none = true := by
  refine ⟨?_, ?_, ?_⟩
  · intro eng rules path ft hmin
    simp only [should_sync, claimVerdict, firstMax]
    rw [foldl_eq_winner, winner_eq_find]
    by_cases hms : rules.filter (fun s => ruleApplies eng s path ft) = []
    · rw [hms, runMax_filter_nil eng path ft rules i32MIN hms]
      simp
    · obtain ⟨r0, hr0⟩ := List.exists_mem_of_ne_nil _ hms
      have hr0f := List.mem_filter.mp hr0
      have h1 : i32MIN < r0.priority := hmin r0 hr0f.1 (by simpa using hr0f.2)
      have h2 : r0.priority ≤ runMax eng path ft i32MIN rules :=
        runMax_bound eng path ft rules i32MIN r0 hr0
      rw [if_pos (by omega)]
      have hcongr : (rules.filter fun s => ruleApplies eng s path ft).find?
          (fun r => decide (r.priority = runMax eng path ft i32MIN rules)) =
          (rules.filter fun s => ruleApplies eng s path ft).find?
          (fun r => (rules.filter fun s => ruleApplies eng s path ft).all
            fun s => decide (s.priority ≤ r.priority)) := by
        apply find?_congr_mem
        intro x hx
        by_cases hxm : x.priority = runMax eng path ft i32MIN rules
        · have hL : decide (x.priority = runMax eng path ft i32MIN rules) = true := by
            simp [hxm]
          have hR : ((rules.filter fun s => ruleApplies eng s path ft).all
              fun s => decide (s.priority ≤ x.priority)) = true :=
            List.all_eq_true.mpr fun s hs => by
              have := runMax_bound eng path ft rules i32MIN s hs
              simp only [decide_eq_true_eq]
              omega
          rw [hL, hR]
        · have hbound := runMax_bound eng path ft rules i32MIN x hx
          obtain ⟨w, hw, hwp⟩ :=
            runMax_attained eng path ft rules i32MIN (lt_of_lt_of_le h1 h2)
          have hL : decide (x.priority = runMax eng path ft i32MIN rules) = false := by
            simp [hxm]
          have hR : ((rules.filter fun s => ruleApplies eng s path ft).all
              fun s => decide (s.priority ≤ x.priority)) = false := by
            rw [Bool.eq_false_iff]
            intro hall
            have hwx := List.all_eq_true.mp hall w hw
            simp only [decide_eq_true_eq] at hwx
            exact hxm (by omega)
          rw [hL, hR]
      rw [hcongr]
      cases (rules.filter fun s => ruleApplies eng s path ft).find?
          (fun r => (rules.filter fun s => ruleApplies eng s path ft).all
            fun s => decide (s.priority ≤ r.priority)) <;> simp
  · simp [should_sync, shouldSyncStep, ruleApplies, match_pattern, globCompile,
      globCompileAux, scanClass, globMatch, specMatch, c1IncludeMd, c1ExcludeTemp, i32MIN]
  · simp [should_sync, shouldSyncStep, ruleApplies, match_pattern, globCompile,
      globCompileAux, scanClass, globMatch, specMatch, c1IncludeMd, c1ExcludeTemp, i32MIN]

/-- C1 witness: the amended equivalence instantiated on the scenario rules. -/
theorem c1_witness :
    (∀ r ∈ [c1IncludeMd, c1ExcludeTemp],
      ruleApplies engNone r "test-temp.md" none = true → i32MIN < r.priority) ∧
      should_sync engNone [c1IncludeMd, c1ExcludeTemp] "test-temp.md" none =
        claimVerdict engNone [c1IncludeMd, c1ExcludeTemp] "test-temp.md" none :=
  ⟨by simp [c1IncludeMd, c1ExcludeTemp, i32MIN],
    c1_should_sync_highest_priority.1 engNone [c1IncludeMd, c1ExcludeTemp]
      "test-temp.md" none (by simp [c1IncludeMd, c1ExcludeTemp, i32MIN])⟩

/-- A rule whose pattern fails to compile (under the given regex engine when
the rule is a regex rule). -/
def patternBroken (eng : RegexEngine) (r : SyncRule) : Prop :=
  match r.pattern_type with
  | PatternType.Glob => globCompile r.pattern = none
  | PatternType.Regex => eng.compile r.pattern = none

/-- C10: pattern matching is total in the presence of malformed patterns —
a rule whose glob or regex pattern fails to compile matches no path (rather
than raising an error), and a rule set all of whose rules have malformed
patterns yields the default include verdict for every path. -/
theorem c10_malformed_patterns_match_nothing :
    (∀ (eng : RegexEngine) (pattern path : String), globCompile pattern = none →
      match_pattern eng PatternType.Glob pattern path = false) ∧
    (∀ (eng : RegexEngine) (pattern path : String), eng.compile pattern = none →
      match_pattern eng PatternType.Regex pattern path = false) ∧
    (∀ (eng : RegexEngine) (rules : List SyncRule) (path : String) (ft : Option String),
      (∀ r ∈ rules, patternBroken eng r) → should_sync eng rules path ft = true) := by
  refine ⟨?_, ?_, ?_⟩
  · intro eng pattern path h
    simp [match_pattern, h]
  · intro eng pattern path h
    simp [match_pattern, h]
  · intro eng rules path ft hbr
    have happ : ∀ r ∈ rules, ruleApplies eng r path ft = false := by
      intro r hr
      have hb := hbr r hr
      simp only [ruleApplies, match_pattern]
      cases hpt : r.pattern_type
      · simp only [patternBroken, hpt] at hb
        rw [hb]
        simp
      · simp only [patternBroken, hpt] at hb
        rw [hb]
        simp
    have hfe : rules.filter (fun s => ruleApplies eng s path ft) = [] := by
      rw [List.filter_eq_nil_iff]
      intro a ha
      simp [happ a ha]
    simp only [should_sync]
    rw [foldl_eq_winner, winner_eq_find, runMax_filter_nil eng path ft rules i32MIN hfe]
    simp

/-- A rule carrying a malformed glob pattern (unclosed character class). -/
def brokenGlobRule : SyncRule :=
  { id := "broken", name := "broken pattern", rule_type := RuleType.Exclude,
    pattern := "[invalid", pattern_type := PatternType.Glob, file_type := none,
    priority := 100, enabled := true, description := none }

/-- C10 witness: a rule set holding only a malformed-glob rule yields the
default include verdict. -/
theorem c10_witness :
    (∀ r ∈ [brokenGlobRule], patternBroken engNone r) ∧
      should_sync engNone [brokenGlobRule] "x.md" none = true :=
  ⟨by simp [patternBroken, brokenGlobRule, globCompile, globCompileAux, scanClass],
    c10_malformed_patterns_match_nothing.2.2 engNone [brokenGlobRule] "x.md" none
      (by simp [patternBroken, brokenGlobRule, globCompile, globCompileAux, scanClass])⟩

/-! ## File-type detection (src/client/src/rules.rs, detect_file_type) -/

/-- Split a character list on a separator character (like Rust `str::split`:
the empty string yields one empty group). -/
def splitOnChar (sep : Char) : List Char → List (List Char)
  | [] => [[]]
  | c :: rest =>
    match splitOnChar sep rest with
    | [] => [[]]
    | g :: gs => if c = sep then [] :: g :: gs else (c :: g) :: gs

/-- ASCII lowercasing of one character (file-type extensions compared by the
source are all ASCII). -/
def charToLower (c : Char) : Char :=
  if 'A' ≤ c ∧ c ≤ 'Z' then Char.ofNat (c.toNat + 32) else c

/-- Rust `Path::extension`: the part of the file name after its last dot;
absent when the name has no dot or only a leading dot. -/
def extension (path : String) : Option String :=
  let name := (splitOnChar '/' path.data).getLastD []
  let parts := splitOnChar '.' name
  if parts.length ≤ 1 then none
  else if ((match name with | '.' :: _ => true | _ => false) && parts.length = 2 : Bool) then
    none
  else some (String.mk (parts.getLastD []))

/-- `detect_file_type` (rules.rs lines 322–341): lowercase the extension and
bucket it into a coarse file-type string. -/
def detect_file_type (path : String) : String :=
  match extension path with
  | some ext =>
    let e := String.mk (ext.data.map charToLower)
    if e = "md" || e = "rst" || e = "txt" then "text"
    else if e = "json" then "json"
    else if e = "yaml" || e = "yml" then "yaml"
    else if e = "toml" then "toml"
    else if e = "xml" then "xml"
    else if e = "exe" || e = "dll" || e = "so" || e = "dylib" then "binary"
    else if e = "png" || e = "jpg" || e = "jpeg" || e = "gif" || e = "bmp" || e = "ico" then "image"
    else if e = "pdf" then "pdf"
    else if e = "zip" || e = "tar" || e = "gz" || e = "rar" || e = "7z" then "archive"
    else e
  | none => "unknown"

/-! ## JSON values and structural merge (src/client/src/conflict.rs)

`serde_json::Value` is modelled as a tree whose objects are key-sorted
association lists (serde_json's default map is a `BTreeMap`, ordered by key);
JSON numbers are modelled as integers, which covers every number appearing in
the checked claims. Parsing (`serde_json::from_str`) is external crate code
and is abstracted as a function parameter. -/

/-- `serde_json::Value`. -/
inductive Json where
  | null
  | bool (b : Bool)
  | num (n : Int)
  | str (s : String)
  | arr (elems : List Json)
  | obj (entries : List (String × Json))
deriving Repr

mutual
/-- Structural equality of JSON values (Rust `==` on `serde_json::Value`). -/
def jsonBeq : Json → Json → Bool
  | Json.null, Json.null => true
  | Json.bool a, Json.bool b => a == b
  | Json.num a, Json.num b => a == b
  | Json.str a, Json.str b => a == b
  | Json.arr a, Json.arr b => jsonBeqList a b
  | Json.obj a, Json.obj b => jsonBeqEntries a b
  | _, _ => false
def jsonBeqList : List Json → List Json → Bool
  | [], [] => true
  | a :: as, b :: bs => jsonBeq a b && jsonBeqList as bs
  | _, _ => false
def jsonBeqEntries : List (String × Json) → List (String × Json) → Bool
  | [], [] => true
  | (ka, va) :: as, (kb, vb) :: bs => ka == kb && jsonBeq va vb && jsonBeqEntries as bs
  | _, _ => false
end

/-- Lexicographic comparison of character lists (the order `BTreeMap<String>`
keys are kept in; code-point order coincides with byte order for UTF-8). -/
def charListLt : List Char → List Char → Bool
  | [], [] => false
  | [], _ :: _ => true
  | _ :: _, [] => false
  | a :: as, b :: bs => if a < b then true else if b < a then false else charListLt as bs

/-- String comparison used for map-key ordering. -/
def strLt (a b : String) : Bool := charListLt a.data b.data

/-- `BTreeMap::get` on a key-sorted association list. -/
def mapGet : List (String × Json) → String → Option Json
  | [], _ => none
  | (k, v) :: rest, key => if k = key then some v else mapGet rest key

/-- `BTreeMap::insert` on a key-sorted association list (replaces an existing
binding, otherwise inserts at the ordered position). -/
def mapInsert : List (String × Json) → String → Json → List (String × Json)
  | [], k, v => [(k, v)]
  | (k', v') :: rest, k, v =>
    if strLt k k' then (k, v) :: (k', v') :: rest
    else if k = k' then (k, v) :: rest
    else (k', v') :: mapInsert rest k v

theorem mapGet_sizeOf (l : List (String × Json)) (k : String) (v : Json) :
    mapGet l k = some v → sizeOf v < sizeOf l := by
  induction l with
  | nil => intro h; simp [mapGet] at h
  | cons p rest ih =>
    intro h
    obtain ⟨k', v'⟩ := p
    simp only [mapGet] at h
    split at h
    · cases h
      simp
      omega
    · have := ih h
      simp
      omega

mutual
/-- `ConflictResolver::merge_json_values_without_base` (conflict.rs lines
283–310): two objects merge recursively per key (remote-only keys are added,
shared keys recurse), anything else keeps the local value. -/
def merge_json_values_without_base : Json → Json → Json
  | Json.obj lm, Json.obj rm => Json.obj (mergeNBEntries lm lm rm)
  | l, _ => l
termination_by l r => sizeOf l + sizeOf r
decreasing_by
  all_goals simp_wf
  all_goals omega
/-- The loop over the remote map's entries in
`merge_json_values_without_base`, with `orig` the (unmodified) local map the
source reads through `local_map.get` and `acc` the map being built (started
as `local_map.clone()`). -/
def mergeNBEntries (orig acc : List (String × Json)) :
    List (String × Json) → List (String × Json)
  | [] => acc
  | (k, rv) :: rest =>
    match h : mapGet orig k with
    | some lv =>
      mergeNBEntries orig (mapInsert acc k (merge_json_values_without_base lv rv)) rest
    | none => mergeNBEntries orig (mapInsert acc k rv) rest
termination_by rem => sizeOf orig + sizeOf rem
decreasing_by
  all_goals simp_wf
  all_goals first
    | omega
    | (have hlt := mapGet_sizeOf _ _ _ h; omega)
end

mutual
/-- `ConflictResolver::merge_json_values` (conflict.rs lines 217–280),
three-way JSON merge: objects merge per key over the union of all keys
(equal local/remote values kept, all-three-present recursing, base-absent
preferring local, one-sided values kept); three arrays prefer remote; any
other shape keeps local. The source iterates a `HashSet` of keys in arbitrary
order while inserting into a `BTreeMap`; since each key's value is computed
independently, iterating the deduplicated key list left to right builds the
same map. -/
def merge_json_values : Json → Json → Json → Json
  | Json.obj bm, Json.obj lm, Json.obj rm =>
    Json.obj (mergeWBKeys bm lm rm
      ((bm.map Prod.fst ++ lm.map Prod.fst ++ rm.map Prod.fst).dedup) [])
  | Json.arr _, Json.arr _, Json.arr rm => Json.arr rm
  | _, l, _ => l
termination_by b l r => ((sizeOf b + sizeOf l + sizeOf r : Nat), 0)
decreasing_by
  all_goals simp_wf
  all_goals omega
/-- The per-key loop of `merge_json_values`. -/
def mergeWBKeys (bm lm rm : List (String × Json)) :
    List String → List (String × Json) → List (String × Json)
  | [], acc => acc
  | k :: ks, acc =>
    match hb : mapGet bm k, hl : mapGet lm k, hr : mapGet rm k with
    | bv, some l, some r =>
      if jsonBeq l r then mergeWBKeys bm lm rm ks (mapInsert acc k l)
      else
        match bv with
        | some b => mergeWBKeys bm lm rm ks (mapInsert acc k (merge_json_values b l r))
        | none => mergeWBKeys bm lm rm ks (mapInsert acc k l)
    | _, some l, none => mergeWBKeys bm lm rm ks (mapInsert acc k l)
    | _, none, some r => mergeWBKeys bm lm rm ks (mapInsert acc k r)
    | _, none, none => mergeWBKeys bm lm rm ks acc
termination_by ks _ => ((sizeOf bm + sizeOf lm + sizeOf rm : Nat), ks.length + 1)
decreasing_by
  all_goals simp_wf
  all_goals first
    | omega
    | (apply Prod.Lex.right; omega)
    | (apply Prod.Lex.left
       have h1 := mapGet_sizeOf _ _ _ hb
       have h2 := mapGet_sizeOf _ _ _ hl
       have h3 := mapGet_sizeOf _ _ _ hr
       omega)
end

/-- Two-digit lowercase hex digit (for JSON control-character escapes). -/
def hexDigit (n : Nat) : Char :=
  if n < 10 then Char.ofNat ('0'.toNat + n) else Char.ofNat ('a'.toNat + n - 10)

/-- serde_json string escaping: quote, backslash, the short control escapes,
and `\u00XX` for the remaining control characters. -/
def escapeJsonChar (c : Char) : List Char :=
  if c = '"' then ['\\', '"']
  else if c = '\\' then ['\\', '\\']
  else if c = '\x08' then ['\\', 'b']
  else if c = '\x09' then ['\\', 't']
  else if c = '\x0a' then ['\\', 'n']
  else if c = '\x0c' then ['\\', 'f']
  else if c = '\x0d' then ['\\', 'r']
  else if c.toNat < 32 then ['\\', 'u', '0', '0', hexDigit (c.toNat / 16), hexDigit (c.toNat % 16)]
  else [c]

/-- A JSON string literal with its quotes. -/
def jsonQuote (s : String) : String :=
  String.mk ('"' :: (s.data.map escapeJsonChar).flatten ++ ['"'])

/-- Two spaces of indentation per nesting level (serde_json's
`PrettyFormatter` default). -/
def sIndent (n : Nat) : String := String.mk (List.replicate (2 * n) ' ')

mutual
/-- `serde_json::to_string_pretty` at nesting depth `n`. -/
def prettyVal (n : Nat) : Json → String
  | Json.null => "null"
  | Json.bool true => "true"
  | Json.bool false => "false"
  | Json.num i => toString i
  | Json.str s => jsonQuote s
  | Json.arr [] => "[]"
  | Json.arr (x :: xs) =>
    "[\n" ++ prettyItems (n + 1) (x :: xs) ++ "\n" ++ sIndent n ++ "]"
  | Json.obj [] => "\x7b\x7d"
  | Json.obj (e :: es) =>
    "\x7b\n" ++ prettyEntries (n + 1) (e :: es) ++ "\n" ++ sIndent n ++ "\x7d"
termination_by j => sizeOf j
decreasing_by
  all_goals simp_wf
  all_goals omega
/-- Array items, one per line, comma separated. -/
def prettyItems (n : Nat) : List Json → String
  | [] => ""
  | [x] => sIndent n ++ prettyVal n x
  | x :: y :: xs => sIndent n ++ prettyVal n x ++ ",\n" ++ prettyItems n (y :: xs)
termination_by l => sizeOf l
decreasing_by
  all_goals simp_wf
  all_goals omega
/-- Object entries, one per line, comma separated. -/
def prettyEntries (n : Nat) : List (String × Json) → String
  | [] => ""
  | [(k, v)] => sIndent n ++ jsonQuote k ++ ": " ++ prettyVal n v
  | (k, v) :: e :: es =>
    sIndent n ++ jsonQuote k ++ ": " ++ prettyVal n v ++ ",\n" ++ prettyEntries n (e :: es)
termination_by l => sizeOf l
decreasing_by
  all_goals simp_wf
  all_goals omega
end

/-- `serde_json::to_string_pretty`. -/
def to_string_pretty (j : Json) : String := prettyVal 0 j

/-! ## Conflict resolver (src/client/src/conflict.rs) -/

/-- Rust enum `ConflictType` (conflict.rs). -/
inductive ConflictType where
  | ModifyModify
  | ModifyDelete
  | BinaryConflict
deriving DecidableEq, Repr

/-- Rust enum `ResolutionStrategy` (conflict.rs). -/
inductive ResolutionStrategy where
  | KeepLocal
  | KeepRemote
  | KeepNewer
  | AutoMerge
  | Manual
deriving DecidableEq, Repr

/-- Rust enum `MergeResult` (conflict.rs). -/
inductive MergeResult where
  | Merged (s : String)
  | NoConflict
  | Conflict (s : String)
  | Error (s : String)
deriving DecidableEq, Repr

/-- The `ConflictResolver` configuration fields (conflict.rs lines 46–55). -/
structure ResolverConfig where
  default_strategy : ResolutionStrategy
  auto_merge_text : Bool
  auto_merge_structured : Bool

/-- `ConflictResolver::create_conflict_marker` (conflict.rs lines 333–340). -/
def create_conflict_marker (localS remoteS : String) : MergeResult :=
  MergeResult.Conflict
    ("<<<<<<< LOCAL\n" ++ localS ++ "\n=======\n" ++ remoteS ++ "\n>>>>>>> REMOTE")

/-- `ConflictResolver::merge_text` (conflict.rs lines 169–193): simplified
three-way merge when a base is present, conflict markers when it is not. -/
def merge_text (localS remoteS : String) : Option String → MergeResult
  | some base =>
    if base ≠ localS ∧ base ≠ remoteS ∧ localS ≠ remoteS then
      create_conflict_marker localS remoteS
    else if base ≠ localS then MergeResult.Merged localS
    else if base ≠ remoteS then MergeResult.Merged remoteS
    else MergeResult.NoConflict
  | none => create_conflict_marker localS remoteS

/-- `ConflictResolver::merge_json` (conflict.rs lines 196–214), with
`serde_json::from_str` abstracted as `parse`; `none` models the `Err` results
of the source (parse failures propagated by `?`). -/
def merge_json (parse : String → Option Json) (localS remoteS : String)
    (base : Option String) : Option MergeResult :=
  match parse localS, parse remoteS with
  | some lv, some rv =>
    match base with
    | some bs =>
      match parse bs with
      | some bv =>
        some (MergeResult.Merged (to_string_pretty (merge_json_values bv lv rv)))
      | none => none
    | none =>
      some (MergeResult.Merged (to_string_pretty (merge_json_values_without_base lv rv)))
  | _, _ => none

/-- `ConflictResolver::merge_yaml` (conflict.rs lines 313–330), with
`serde_yaml` parsing and serialization abstracted. -/
def merge_yaml (parseY : String → Option Json) (printY : Json → String)
    (localS remoteS : String) (base : Option String) : Option MergeResult :=
  match parseY localS, parseY remoteS with
  | some lv, some rv =>
    match base with
    | some bs =>
      match parseY bs with
      | some bv => some (MergeResult.Merged (printY (merge_json_values bv lv rv)))
      | none => none
    | none =>
      some (MergeResult.Merged (printY (merge_json_values_without_base lv rv)))
  | _, _ => none

/-- `ConflictResolver::resolve_modify_modify` (conflict.rs lines 96–144):
dispatch on the detected file type; text merges via `merge_text` when
`auto_merge_text` is set, JSON/YAML via the structural merges when
`auto_merge_structured` is set, anything else by the default strategy. -/
def resolve_modify_modify (parse : String → Option Json)
    (parseY : String → Option Json) (printY : Json → String)
    (cfg : ResolverConfig) (path localS remoteS : String)
    (base : Option String) : Option MergeResult :=
  let ft := detect_file_type path
  if ft = "text" ∨ ft = "md" ∨ ft = "rst" ∨ ft = "txt" then
    if cfg.auto_merge_text then some (merge_text localS remoteS base)
    else some (create_conflict_marker localS remoteS)
  else if ft = "json" then
    if cfg.auto_merge_structured then merge_json parse localS remoteS base
    else some (create_conflict_marker localS remoteS)
  else if ft = "yaml" ∨ ft = "yml" then
    if cfg.auto_merge_structured then merge_yaml parseY printY localS remoteS base
    else some (create_conflict_marker localS remoteS)
  else
    match cfg.default_strategy with
    | ResolutionStrategy.KeepLocal => some (MergeResult.Merged localS)
    | ResolutionStrategy.KeepRemote => some (MergeResult.Merged remoteS)
    | ResolutionStrategy.Manual => some (create_conflict_marker localS remoteS)
    | _ => some (create_conflict_marker localS remoteS)

/-- `ConflictResolver::resolve_modify_delete` (conflict.rs lines 147–166). -/
def resolve_modify_delete (cfg : ResolverConfig) (localS remoteS : String) :
    MergeResult :=
  match cfg.default_strategy with
  | ResolutionStrategy.KeepLocal => MergeResult.Merged localS
  | ResolutionStrategy.KeepRemote =>
    if remoteS.isEmpty then MergeResult.Merged localS else MergeResult.Merged remoteS
  | _ => create_conflict_marker localS remoteS

/-- `ConflictResolver::resolve` (conflict.rs lines 72–93). -/
def resolve (parse : String → Option Json) (parseY : String → Option Json)
    (printY : Json → String) (cfg : ResolverConfig) (local_path localS remoteS : String)
    (base : Option String) (conflict_type : ConflictType) : Option MergeResult :=
  match conflict_type with
  | ConflictType.ModifyModify =>
    resolve_modify_modify parse parseY printY cfg local_path localS remoteS base
  | ConflictType.ModifyDelete => some (resolve_modify_delete cfg localS remoteS)
  | ConflictType.BinaryConflict =>
    some (MergeResult.Conflict "二进制文件冲突无法自动解决")

/-! ## Claims C2 and C5 -/

/-- C2 counterexample: with equal local and remote text content and no base,
`merge_text` (hence `resolve` on a ModifyModify text conflict with
`auto_merge_text` enabled) emits conflict markers instead of the no-conflict
result the claim demands. -/
theorem c2_counterexample_no_base_equal_sides :
    resolve (fun _ => none) (fun _ => none) (fun _ => "")
        ⟨ResolutionStrategy.Manual, true, true⟩ "a.md" "x" "x" none
        ConflictType.ModifyModify =
      some (MergeResult.Conflict "<<<<<<< LOCAL\nx\n=======\nx\n>>>>>>> REMOTE") ∧
      resolve (fun _ => none) (fun _ => none) (fun _ => "")
        ⟨ResolutionStrategy.Manual, true, true⟩ "a.md" "x" "x" none
        ConflictType.ModifyModify ≠ some MergeResult.NoConflict := by
  constructor
  · simp [resolve, resolve_modify_modify, detect_file_type, extension, splitOnChar,
      charToLower, merge_text, create_conflict_marker]
  · simp [resolve, resolve_modify_modify, detect_file_type, extension, splitOnChar,
      charToLower, merge_text, create_conflict_marker]

/-- C2 (amended): for text conflicts with a base, equal local and remote
content merges without conflict markers — `NoConflict` exactly when the common
content equals the base, and `Merged(local)` when both sides changed it the
same way; without a base the resolver always emits conflict markers, even for
equal sides. The ModifyModify text dispatch forwards to `merge_text` whenever
`auto_merge_text` is set. -/
theorem c2_merge_text_equal_sides :
    (∀ (localS remoteS baseS : String), localS = remoteS →
      merge_text localS remoteS (some baseS) =
        (if baseS = localS then MergeResult.NoConflict else MergeResult.Merged localS)) ∧
    (∀ (localS remoteS : String), localS = remoteS →
      merge_text localS remoteS none = create_conflict_marker localS remoteS) ∧
    (∀ (parse parseY : String → Option Json) (printY : Json → String)
        (cfg : ResolverConfig) (path localS remoteS : String) (base : Option String),
      detect_file_type path = "text" → cfg.auto_merge_text = true →
        resolve parse parseY printY cfg path localS remoteS base
            ConflictType.ModifyModify = some (merge_text localS remoteS base)) := by
  refine ⟨?_, ?_, ?_⟩
  · intro localS remoteS baseS h
    subst h
    by_cases hb : baseS = localS <;> simp [merge_text, hb]
  · intro localS remoteS h
    subst h
    rfl
  · intro parse parseY printY cfg path localS remoteS base hft hauto
    simp [resolve, resolve_modify_modify, hft, hauto]

/-- C2 witness: equal sides over a differing base merge to the common content. -/
theorem c2_witness :
    ("x" : String) = "x" ∧ merge_text "x" "x" (some "b") = MergeResult.Merged "x" :=
  ⟨rfl, (c2_merge_text_equal_sides.1 "x" "x" "b" rfl).trans (by simp)⟩

theorem mapGet_mapInsert_self (k : String) (v : Json) :
    ∀ (m : List (String × Json)), mapGet (mapInsert m k v) k = some v := by
  intro m
  induction m with
  | nil => simp [mapInsert, mapGet]
  | cons p rest ih =>
    obtain ⟨k', v'⟩ := p
    simp only [mapInsert]
    by_cases h1 : strLt k k' = true
    · rw [if_pos h1]
      simp [mapGet]
    · rw [if_neg h1]
      by_cases h2 : k = k'
      · rw [if_pos h2]
        simp [mapGet]
      · rw [if_neg h2]
        simp only [mapGet]
        rw [if_neg (fun hc => h2 hc.symm)]
        exact ih

theorem mapGet_mapInsert_ne (k k' : String) (v : Json) (hne : k ≠ k') :
    ∀ (m : List (String × Json)), mapGet (mapInsert m k v) k' = mapGet m k' := by
  intro m
  induction m with
  | nil =>
    simp only [mapInsert, mapGet]
    rw [if_neg hne]
  | cons p rest ih =>
    obtain ⟨k2, v2⟩ := p
    simp only [mapInsert]
    by_cases h1 : strLt k k2 = true
    · rw [if_pos h1]
      simp only [mapGet]
      rw [if_neg hne]
    · rw [if_neg h1]
      by_cases h2 : k = k2
      · rw [if_pos h2]
        simp only [mapGet]
        rw [if_neg hne, if_neg (h2 ▸ hne)]
      · rw [if_neg h2]
        simp only [mapGet]
        by_cases h3 : k2 = k'
        · rw [if_pos h3, if_pos h3]
        · rw [if_neg h3, if_neg h3]
          exact ih

theorem mapGet_eq_none_of_not_mem (k : String) :
    ∀ (m : List (String × Json)), k ∉ m.map Prod.fst → mapGet m k = none := by
  intro m
  induction m with
  | nil => intro _; rfl
  | cons p rest ih =>
    obtain ⟨k', v'⟩ := p
    intro h
    simp only [List.map_cons, List.mem_cons] at h
    push_neg at h
    simp only [mapGet]
    rw [if_neg (fun hc => h.1 hc.symm)]
    exact ih h.2

theorem mergeNBEntries_mapGet (lm : List (String × Json)) :
    ∀ (rm acc : List (String × Json)) (k : String), (rm.map Prod.fst).Nodup →
      mapGet (mergeNBEntries lm acc rm) k =
        (match mapGet rm k with
         | some rv =>
           some (match mapGet lm k with
                 | some lv => merge_json_values_without_base lv rv
                 | none => rv)
         | none => mapGet acc k) := by
  intro rm
  induction rm with
  | nil => intro acc k _; simp [mergeNBEntries, mapGet]
  | cons p rest ih =>
    obtain ⟨k', rv'⟩ := p
    intro acc k hnd
    simp only [List.map_cons, List.nodup_cons] at hnd
    obtain ⟨hk', hnd⟩ := hnd
    by_cases hk : k' = k
    · subst hk
      have hrest : mapGet rest k' = none :=
        mapGet_eq_none_of_not_mem k' rest hk'
      simp only [mergeNBEntries]
      cases hlm : mapGet lm k' with
      | some lv =>
        rw [ih _ k' hnd, hrest]
        simp only [mapGet, if_pos rfl]
        rw [mapGet_mapInsert_self]
        simp [hlm]
      | none =>
        rw [ih _ k' hnd, hrest]
        simp only [mapGet, if_pos rfl]
        rw [mapGet_mapInsert_self]
        simp [hlm]
    · simp only [mergeNBEntries]
      have hcons : mapGet ((k', rv') :: rest) k = mapGet rest k := by
        simp only [mapGet]
        rw [if_neg hk]
      rw [hcons]
      cases hlm : mapGet lm k' with
      | some lv =>
        rw [ih _ k hnd]
        cases hrk : mapGet rest k with
        | some rv => rfl
        | none => exact mapGet_mapInsert_ne k' k _ hk acc
      | none =>
        rw [ih _ k hnd]
        cases hrk : mapGet rest k with
        | some rv => rfl
        | none => exact mapGet_mapInsert_ne k' k _ hk acc

/-- Is a JSON value an object? -/
def jsonIsObj : Json → Bool
  | Json.obj _ => true
  | _ => false

/-- The entry list of a JSON object (empty for non-objects). -/
def jsonEntries : Json → List (String × Json)
  | Json.obj e => e
  | _ => []

/-- The two sides of the specification's JSON-merge scenario. -/
def c5Local : Json := Json.obj [("a", Json.num 1), ("b", Json.num 2)]

/-- The remote side of the specification's JSON-merge scenario. -/
def c5Remote : Json := Json.obj [("a", Json.num 1), ("c", Json.num 3)]

/-- C5: the no-base JSON merge is a left-biased deep merge returning `Merged`:
on two objects (remote keys duplicate-free) the merged value at any key is the
recursive merge when both sides carry the key, the present side's value when
only one does; when the two values are not both objects the local value wins;
and the scenario local `{"a":1,"b":2}` with remote `{"a":1,"c":3}` merges to
`{"a":1,"b":2,"c":3}`, serialized pretty. -/
theorem c5_merge_json_left_biased :
    (∀ (lm rm : List (String × Json)) (k : String), (rm.map Prod.fst).Nodup →
      mapGet (jsonEntries (merge_json_values_without_base (Json.obj lm) (Json.obj rm))) k =
        (match mapGet lm k, mapGet rm k with
         | some lv, some rv => some (merge_json_values_without_base lv rv)
         | some lv, none => some lv
         | none, some rv => some rv
         | none, none => none)) ∧
    (∀ (l r : Json), (jsonIsObj l && jsonIsObj r) = false →
      merge_json_values_without_base l r = l) ∧
    (∀ (parse : String → Option Json) (localS remoteS : String),
      parse localS = some c5Local → parse remoteS = some c5Remote →
        merge_json parse localS remoteS none =
          some (MergeResult.Merged
            "\x7b\n  \"a\": 1,\n  \"b\": 2,\n  \"c\": 3\n\x7d")) := by
  refine ⟨?_, ?_, ?_⟩
  · intro lm rm k hnd
    have hobj : merge_json_values_without_base (Json.obj lm) (Json.obj rm) =
        Json.obj (mergeNBEntries lm lm rm) := by
      simp [merge_json_values_without_base]
    rw [hobj]
    simp only [jsonEntries]
    rw [mergeNBEntries_mapGet lm rm lm k hnd]
    cases hrk : mapGet rm k <;> cases hlk : mapGet lm k <;> rfl
  · intro l r h
    cases l <;> cases r <;> simp_all [jsonIsObj, merge_json_values_without_base]
  · intro parse localS remoteS hl hr
    simp only [merge_json, hl, hr, c5Local, c5Remote]
    simp [merge_json_values_without_base, mergeNBEntries, mapGet, mapInsert, strLt,
      charListLt, to_string_pretty, prettyVal, prettyEntries, jsonQuote, escapeJsonChar,
      sIndent]
    rfl

/-- C5 witness: the scenario merge evaluated through `merge_json` with a stub
parser supplying the two parsed objects. -/
theorem c5_witness :
    ((fun s => if s = "L" then some c5Local else some c5Remote) "L" = some c5Local ∧
      (fun s => if s = "L" then some c5Local else some c5Remote) "R" = some c5Remote) ∧
      merge_json (fun s => if s = "L" then some c5Local else some c5Remote) "L" "R" none =
        some (MergeResult.Merged "\x7b\n  \"a\": 1,\n  \"b\": 2,\n  \"c\": 3\n\x7d") :=
  ⟨⟨by simp, by simp⟩,
    c5_merge_json_left_biased.2.2 (fun s => if s = "L" then some c5Local else some c5Remote)
      "L" "R" (by simp) (by simp)⟩

/-! ## Client errors (src/client/src/error.rs) -/

/-- `tonic::Code` (gRPC status codes), as carried by `ClientError::Grpc`. -/
inductive GrpcCode where
  | ok
  | cancelled
  | unknown
  | invalidArgument
  | deadlineExceeded
  | notFound
  | alreadyExists
  | permissionDenied
  | resourceExhausted
  | failedPrecondition
  | aborted
  | outOfRange
  | unimplemented
  | internal
  | unavailable
  | dataLoss
  | unauthenticated
deriving DecidableEq, Repr

/-- Rust enum `ClientError` (error.rs); error sources (`Box<dyn Error>` /
`io::Error` payloads) are dropped, exactly as the manual `Clone`
implementation does. -/
inductive ClientError where
  | Config (message : String)
  | Auth (message : String)
  | Token (message : String)
  | Network (message : String)
  | Grpc (code : GrpcCode) (message : String)
  | File (path message : String)
  | Sync (path message : String)
  | Conflict (path message : String)
  | Parse (message : String)
  | Validation (message : String)
  | Timeout (operation : String) (timeout_secs : Nat)
  | RetryExhausted (operation : String) (max_retries : Nat) (last_error : String)
  | Internal (message : String)
deriving DecidableEq, Repr

/-- `ClientError::is_retryable` (error.rs lines 273–283): network errors,
gRPC Unavailable/DeadlineExceeded, and client timeouts. -/
def is_retryable : ClientError → Bool
  | ClientError.Network _ => true
  | ClientError.Grpc GrpcCode.unavailable _ => true
  | ClientError.Grpc GrpcCode.deadlineExceeded _ => true
  | ClientError.Timeout _ _ => true
  | _ => false

/-! ## Retry configuration and executor (src/client/src/retry.rs)

`f64` arithmetic is modelled with exact rationals; the `rand::random::<f64>()`
sample (a value in [0,1)) becomes an explicit argument `u`. The `as u64` and
`as i64` casts truncate their non-negative operands, which `Nat.floor` models
(a negative product saturates to 0 under `as u64`, matching `Nat.floor`). -/

/-- The fields of Rust struct `RetryConfig` (retry.rs lines 8–24). -/
structure RetryConfig where
  max_retries : Nat
  initial_delay_ms : Nat
  max_delay_ms : Nat
  multiplier : ℚ
  jitter_factor : ℚ

/-- `RetryConfig::default` (retry.rs lines 26–36). -/
def defaultRetryConfig : RetryConfig :=
  { max_retries := 3, initial_delay_ms := 1000, max_delay_ms := 30000,
    multiplier := 2, jitter_factor := 1 / 10 }

/-- The clamped exponential delay of `RetryConfig::calculate_delay`
(retry.rs line 65): `(initial as f64 * multiplier.powi(attempt)).min(max) as u64`. -/
def baseDelay (cfg : RetryConfig) (attempt : Nat) : Nat :=
  min (Nat.floor ((cfg.initial_delay_ms : ℚ) * cfg.multiplier ^ attempt)) cfg.max_delay_ms

/-- `RetryConfig::calculate_delay` (retry.rs lines 63–75): the clamped
exponential delay plus the absolute value of the jitter term
`delay · jitter_factor · (u − 0.5) · 2`; the `.max(0)` of the source is
redundant once the jitter is made non-negative by `.abs()`. -/
def calculate_delay (cfg : RetryConfig) (attempt : Nat) (u : ℚ) : Nat :=
  baseDelay cfg attempt +
    Nat.floor |(baseDelay cfg attempt : ℚ) * cfg.jitter_factor * (u - 1 / 2) * 2|

/-- C3 counterexample: with the default configuration (initial 1000 ms,
multiplier 2, max 30000 ms, jitter factor 0.1) and random sample 3/4, attempt
5 computes 30000 + 1500 = 31500 ms — the delay exceeds `max_delay_ms`,
because the jitter is taken in absolute value and added on top of the already
clamped delay. -/
theorem c3_counterexample_delay_exceeds_max :
    calculate_delay defaultRetryConfig 5 (3 / 4) = 31500 ∧
      defaultRetryConfig.max_delay_ms < calculate_delay defaultRetryConfig 5 (3 / 4) ∧
      (0 : ℚ) ≤ 3 / 4 ∧ (3 / 4 : ℚ) < 1 := by
  have hbase : baseDelay defaultRetryConfig 5 = 30000 := by
    simp only [baseDelay, defaultRetryConfig]
    rw [show ((1000 : ℕ) : ℚ) * (2 : ℚ) ^ 5 = ((32000 : ℕ) : ℚ) by norm_num]
    rw [Nat.floor_natCast]
    omega
  have hjit : |((30000 : ℕ) : ℚ) * (1 / 10) * (3 / 4 - 1 / 2) * 2| = ((1500 : ℕ) : ℚ) := by
    norm_num
  have hcalc : calculate_delay defaultRetryConfig 5 (3 / 4) = 31500 := by
    simp only [calculate_delay, hbase]
    rw [show (1 / 10 : ℚ) = defaultRetryConfig.jitter_factor from rfl] at hjit
    rw [hjit, Nat.floor_natCast]
  refine ⟨hcalc, ?_, by norm_num, by norm_num⟩
  rw [hcalc]
  norm_num [defaultRetryConfig]

/-- C3 (amended): the clamped exponential delay (before jitter) is monotone
non-decreasing in the attempt index whenever the multiplier is at least 1,
and never exceeds `max_delay_ms`; the jitter term is always non-negative
(added, never subtracted) and bounded by `jitter_factor` times the clamped
delay, so the final delay lies between the clamped delay and the clamped
delay plus `⌊jitter_factor · max_delay_ms⌋` — it can exceed `max_delay_ms`
by up to that amount. -/
theorem c3_delay_monotone_clamped_jitter :
    (∀ (cfg : RetryConfig) (k : Nat), 1 ≤ cfg.multiplier →
      baseDelay cfg k ≤ baseDelay cfg (k + 1)) ∧
    (∀ (cfg : RetryConfig) (k : Nat), baseDelay cfg k ≤ cfg.max_delay_ms) ∧
    (∀ (cfg : RetryConfig) (k : Nat) (u : ℚ),
      baseDelay cfg k ≤ calculate_delay cfg k u) ∧
    (∀ (cfg : RetryConfig) (k : Nat) (u : ℚ),
      0 ≤ cfg.jitter_factor → 0 ≤ u → u < 1 →
        calculate_delay cfg k u ≤
          cfg.max_delay_ms + Nat.floor ((cfg.max_delay_ms : ℚ) * cfg.jitter_factor)) := by
  refine ⟨?_, ?_, ?_, ?_⟩
  · intro cfg k hm
    apply min_le_min _ (le_refl _)
    apply Nat.floor_le_floor
    apply mul_le_mul_of_nonneg_left _ (by positivity)
    exact pow_le_pow_right₀ hm (Nat.le_succ k)
  · intro cfg k
    exact min_le_right _ _
  · intro cfg k u
    exact Nat.le_add_right _ _
  · intro cfg k u hjf hu0 hu1
    have hbm : baseDelay cfg k ≤ cfg.max_delay_ms := min_le_right _ _
    have hb : (baseDelay cfg k : ℚ) ≤ (cfg.max_delay_ms : ℚ) := by exact_mod_cast hbm
    have hbn : (0 : ℚ) ≤ (baseDelay cfg k : ℚ) := by positivity
    have habs : |(u - 1 / 2) * 2| ≤ 1 := by
      rw [abs_le]
      constructor <;> linarith
    have h1 : |(baseDelay cfg k : ℚ) * cfg.jitter_factor * (u - 1 / 2) * 2| ≤
        (cfg.max_delay_ms : ℚ) * cfg.jitter_factor := by
      have hre : (baseDelay cfg k : ℚ) * cfg.jitter_factor * (u - 1 / 2) * 2 =
          ((baseDelay cfg k : ℚ) * cfg.jitter_factor) * ((u - 1 / 2) * 2) := by ring
      rw [hre, abs_mul, abs_of_nonneg (mul_nonneg hbn hjf)]
      calc (baseDelay cfg k : ℚ) * cfg.jitter_factor * |(u - 1 / 2) * 2|
          ≤ (baseDelay cfg k : ℚ) * cfg.jitter_factor * 1 :=
            mul_le_mul_of_nonneg_left habs (mul_nonneg hbn hjf)
        _ = (baseDelay cfg k : ℚ) * cfg.jitter_factor := mul_one _
        _ ≤ (cfg.max_delay_ms : ℚ) * cfg.jitter_factor :=
            mul_le_mul_of_nonneg_right hb hjf
    simp only [calculate_delay]
    exact Nat.add_le_add hbm (Nat.floor_le_floor h1)

/-- C3 witness: the amended bounds instantiated at multiplier 1, jitter
factor 0, random sample 0. -/
theorem c3_witness :
    ((1 : ℚ) ≤ (1 : ℚ) ∧ (0 : ℚ) ≤ (0 : ℚ) ∧ (0 : ℚ) < 1) ∧
      baseDelay ⟨3, 1000, 30000, 1, 0⟩ 2 ≤ baseDelay ⟨3, 1000, 30000, 1, 0⟩ 3 ∧
      baseDelay ⟨3, 1000, 30000, 1, 0⟩ 2 ≤ (⟨3, 1000, 30000, 1, 0⟩ : RetryConfig).max_delay_ms ∧
      baseDelay ⟨3, 1000, 30000, 1, 0⟩ 2 ≤ calculate_delay ⟨3, 1000, 30000, 1, 0⟩ 2 0 ∧
      calculate_delay ⟨3, 1000, 30000, 1, 0⟩ 2 0 ≤
        (⟨3, 1000, 30000, 1, 0⟩ : RetryConfig).max_delay_ms +
          Nat.floor (((⟨3, 1000, 30000, 1, 0⟩ : RetryConfig).max_delay_ms : ℚ) *
            (⟨3, 1000, 30000, 1, 0⟩ : RetryConfig).jitter_factor) :=
  ⟨⟨le_refl 1, le_refl 0, zero_lt_one⟩,
    c3_delay_monotone_clamped_jitter.1 ⟨3, 1000, 30000, 1, 0⟩ 2 (le_refl 1),
    c3_delay_monotone_clamped_jitter.2.1 ⟨3, 1000, 30000, 1, 0⟩ 2,
    c3_delay_monotone_clamped_jitter.2.2.1 ⟨3, 1000, 30000, 1, 0⟩ 2 0,
    c3_delay_monotone_clamped_jitter.2.2.2 ⟨3, 1000, 30000, 1, 0⟩ 2 0
      (le_refl 0) (le_refl 0) zero_lt_one⟩

/-! ## Retry executor (src/client/src/retry.rs lines 129–193) -/

/-- The attempt loop of `RetryExecutor::execute`: the operation is an explicit
function from the 0-indexed attempt number to its outcome, `remaining` counts
the retries still allowed (`max_retries − attempt`, so exhaustion at
`remaining = 0` is the source's `attempt == max_retries` check); backoff
sleeps affect timing only, never the returned value. -/
def executeGo {α : Type} (op : Nat → Except ClientError α) :
    Nat → Nat → Except ClientError α
  | remaining, attempt =>
    match op attempt with
    | Except.ok v => Except.ok v
    | Except.error e =>
      if is_retryable e = false then Except.error e
      else
        match remaining with
        | 0 => Except.error e
        | r + 1 => executeGo op r (attempt + 1)

/-- `RetryExecutor::execute` with `max_retries` from the configuration. -/
def execute {α : Type} (op : Nat → Except ClientError α) (max_retries : Nat) :
    Except ClientError α :=
  executeGo op max_retries 0

/-- The number of times the loop of `executeGo` invokes the operation. -/
def attemptsGo {α : Type} (op : Nat → Except ClientError α) : Nat → Nat → Nat
  | remaining, attempt =>
    match op attempt with
    | Except.ok _ => 1
    | Except.error e =>
      if is_retryable e = false then 1
      else
        match remaining with
        | 0 => 1
        | r + 1 => attemptsGo op r (attempt + 1) + 1

/-- The number of attempts `execute` performs. -/
def attemptCount {α : Type} (op : Nat → Except ClientError α) (max_retries : Nat) : Nat :=
  attemptsGo op max_retries 0

theorem executeGo_all_retryable {α : Type} (op : Nat → Except ClientError α)
    (e : Nat → ClientError) :
    ∀ (r a : Nat),
      (∀ k, a ≤ k → k ≤ a + r → op k = Except.error (e k) ∧ is_retryable (e k) = true) →
        executeGo op r a = Except.error (e (a + r)) ∧ attemptsGo op r a = r + 1 := by
  intro r
  induction r with
  | zero =>
    intro a h
    obtain ⟨hop, hret⟩ := h a (le_refl a) (by omega)
    simp [executeGo, attemptsGo, hop, hret]
  | succ r ih =>
    intro a h
    obtain ⟨hop, hret⟩ := h a (le_refl a) (by omega)
    have hrec := ih (a + 1) (fun k hk1 hk2 => h k (by omega) (by omega))
    have heq : a + 1 + r = a + (r + 1) := by omega
    rw [heq] at hrec
    simp [executeGo, attemptsGo, hop, hret, hrec.1, hrec.2]

theorem attemptsGo_le {α : Type} (op : Nat → Except ClientError α) :
    ∀ (r a : Nat), attemptsGo op r a ≤ r + 1 := by
  intro r
  induction r with
  | zero =>
    intro a
    simp only [attemptsGo]
    cases op a <;> simp
  | succ r ih =>
    intro a
    simp only [attemptsGo]
    cases op a with
    | ok v => simp
    | error e =>
      by_cases hret : is_retryable e = false
      · simp [hret]
      · have hret2 : is_retryable e = true := by
          cases hx : is_retryable e
          · exact absurd hx hret
          · rfl
        simp only [hret2]
        simp only [Bool.true_eq_false, if_false]
        have := ih (a + 1)
        omega

/-- C8 counterexample: a persistently failing network operation with one
allowed retry exhausts its retries, and `execute` returns the network error
itself — not a retry-exhausted error (`ClientError::RetryExhausted` is never
constructed by the executor). -/
theorem c8_counterexample_no_retry_exhausted :
    execute (fun _ => Except.error (ClientError.Network "connection refused")
        : Nat → Except ClientError Unit) 1 =
      Except.error (ClientError.Network "connection refused") ∧
      ∀ (o : String) (m : Nat) (l : String),
        execute (fun _ => Except.error (ClientError.Network "connection refused")
            : Nat → Except ClientError Unit) 1 ≠
          Except.error (ClientError.RetryExhausted o m l) := by
  have h1 : execute (fun _ => Except.error (ClientError.Network "connection refused")
      : Nat → Except ClientError Unit) 1 =
      Except.error (ClientError.Network "connection refused") := by
    simp [execute, executeGo, is_retryable]
  exact ⟨h1, fun o m l => by rw [h1]; simp⟩

/-- C8 (amended): an error is retried exactly when it is retryable — network
(and transport, which converts into the network variant), gRPC unavailable,
gRPC deadline-exceeded, and client timeout; any other error is returned
immediately after a single attempt; at most `max_retries + 1` attempts are
made; and when every attempt fails with a retryable error the executor
performs `max_retries + 1` attempts and returns the last attempt's error
itself (no retry-exhausted wrapper is produced). -/
theorem c8_retry_policy :
    (∀ (e : ClientError), is_retryable e = true ↔
      ((∃ m, e = ClientError.Network m) ∨
        (∃ m, e = ClientError.Grpc GrpcCode.unavailable m) ∨
        (∃ m, e = ClientError.Grpc GrpcCode.deadlineExceeded m) ∨
        (∃ o t, e = ClientError.Timeout o t))) ∧
    (∀ (α : Type) (op : Nat → Except ClientError α) (m : Nat) (e : ClientError),
      op 0 = Except.error e → is_retryable e = false →
        execute op m = Except.error e ∧ attemptCount op m = 1) ∧
    (∀ (α : Type) (op : Nat → Except ClientError α) (m : Nat),
      attemptCount op m ≤ m + 1) ∧
    (∀ (α : Type) (op : Nat → Except ClientError α) (m : Nat) (e : Nat → ClientError),
      (∀ k, k ≤ m → op k = Except.error (e k)) →
      (∀ k, k ≤ m → is_retryable (e k) = true) →
        execute op m = Except.error (e m) ∧ attemptCount op m = m + 1) := by
  refine ⟨?_, ?_, ?_, ?_⟩
  · intro e
    cases e with
    | Grpc code m => cases code <;> simp [is_retryable]
    | _ => simp [is_retryable]
  · intro α op m e hop hret
    constructor
    · cases m <;> simp [execute, executeGo, hop, hret]
    · cases m <;> simp [attemptCount, attemptsGo, hop, hret]
  · intro α op m
    exact attemptsGo_le op m 0
  · intro α op m e hop hret
    have := executeGo_all_retryable op e m 0 (fun k hk1 hk2 => ⟨hop k (by omega), hret k (by omega)⟩)
    simpa [execute, attemptCount] using this

/-- C8 witness: a non-retryable configuration error is returned after exactly
one attempt, and two persistently retryable network failures exhaust
`max_retries = 1` after two attempts, surfacing the network error. -/
theorem c8_witness :
    ((fun _ => Except.error (ClientError.Config "bad")
        : Nat → Except ClientError Nat) 0 = Except.error (ClientError.Config "bad") ∧
      is_retryable (ClientError.Config "bad") = false) ∧
      execute (fun _ => Except.error (ClientError.Config "bad") : Nat → Except ClientError Nat) 3 =
        Except.error (ClientError.Config "bad") ∧
      attemptCount (fun _ => Except.error (ClientError.Config "bad") : Nat → Except ClientError Nat) 3 = 1 :=
  ⟨⟨rfl, rfl⟩,
    (c8_retry_policy.2.1 Nat (fun _ => Except.error (ClientError.Config "bad")) 3
      (ClientError.Config "bad") rfl rfl).1,
    (c8_retry_policy.2.1 Nat (fun _ => Except.error (ClientError.Config "bad")) 3
      (ClientError.Config "bad") rfl rfl).2⟩

/-! ## Offline queue (src/client/src/retry.rs lines 216–265)

The queue state is the list of queued items in insertion order; each method
returns the new state explicitly (the mutex only serializes access). -/

/-- `OfflineQueue::push` (retry.rs lines 231–243): fail with the queue-full
internal error when the queue already holds `max_size` items, otherwise
append at the tail. -/
def queuePush {α : Type} (max_size : Nat) (q : List α) (item : α) :
    Except ClientError (List α) :=
  if q.length ≥ max_size then
    Except.error (ClientError.Internal ("离线队列已满 (最大: " ++ toString max_size ++ ")"))
  else Except.ok (q ++ [item])

/-- `OfflineQueue::drain` (retry.rs lines 246–249): `mem::take` returns the
whole queue and leaves it empty. -/
def queueDrain {α : Type} (q : List α) : List α × List α := (q, [])

/-- `OfflineQueue::len`. -/
def queueLen {α : Type} (q : List α) : Nat := q.length

/-- `OfflineQueue::is_empty`. -/
def queueIsEmpty {α : Type} (q : List α) : Bool := q.isEmpty

/-- `OfflineQueue::clear`. -/
def queueClear {α : Type} (_q : List α) : List α := []

/-- C7: a push onto a full queue fails with the queue-full error and (being a
pure failure) leaves the queue unchanged; otherwise the item is appended at
the tail; drain returns the whole queue in FIFO (insertion) order and leaves
it empty; consequently, from any state within capacity, push preserves the
capacity bound and drain returns at most capacity items. -/
theorem c7_offline_queue_bounded_fifo :
    (∀ (α : Type) (max : Nat) (q : List α) (i : α), q.length ≥ max →
      queuePush max q i =
        Except.error (ClientError.Internal ("离线队列已满 (最大: " ++ toString max ++ ")"))) ∧
    (∀ (α : Type) (max : Nat) (q : List α) (i : α), q.length < max →
      queuePush max q i = Except.ok (q ++ [i])) ∧
    (∀ (α : Type) (q : List α), queueDrain q = (q, [])) ∧
    (∀ (α : Type) (max : Nat) (q : List α) (i : α) (q' : List α), q.length ≤ max →
      queuePush max q i = Except.ok q' → q'.length ≤ max) ∧
    (∀ (α : Type) (max : Nat) (q : List α), q.length ≤ max →
      (queueDrain q).1.length ≤ max) := by
  refine ⟨?_, ?_, ?_, ?_, ?_⟩
  · intro α max q i h
    simp [queuePush, h]
  · intro α max q i h
    rw [queuePush, if_neg (by omega)]
  · intro α q
    rfl
  · intro α max q i q' hle hpush
    rw [queuePush] at hpush
    split at hpush
    · exact Except.noConfusion hpush
    · rename_i hfull
      cases hpush
      simp
      omega
  · intro α max q h
    simpa [queueDrain] using h

/-- C7 witness: a queue of capacity 2 holding two items rejects a third push
with the queue-full error, and a one-item queue accepts a push at the tail. -/
theorem c7_witness :
    ((["a", "b"] : List String).length ≥ 2 ∧ (["a"] : List String).length < 2 ∧
      (["a", "b"] : List String).length ≤ 2) ∧
      queuePush 2 ["a", "b"] "c" =
        Except.error (ClientError.Internal ("离线队列已满 (最大: " ++ toString 2 ++ ")")) ∧
      queuePush 2 ["a"] "b" = Except.ok (["a"] ++ ["b"]) ∧
      queueDrain (["a", "b"] : List String) = (["a", "b"], []) :=
  ⟨⟨by simp, by simp, by simp⟩,
    c7_offline_queue_bounded_fifo.1 String 2 ["a", "b"] "c" (by simp),
    c7_offline_queue_bounded_fifo.2.1 String 2 ["a"] "b" (by simp),
    c7_offline_queue_bounded_fifo.2.2.1 String ["a", "b"]⟩

/-! ## Server object storage (src/server/src/storage.rs)

The S3/MinIO bucket is modelled as an association list from object keys to
byte lists (a put shadows earlier bindings); `Uuid` values are modelled by
their string rendering. Alongside the new store state, the model records the
list of storage requests the call issues, so that "skips the body write" is
expressible. -/

/-- Rust struct `StoragePath` (storage.rs lines 211–215). -/
structure StoragePath where
  user_id : String
  file_hash : String
deriving DecidableEq, Repr

/-- `StoragePath::full_path` (storage.rs lines 227–229). -/
def StoragePath.full_path (p : StoragePath) : String :=
  "users/" ++ p.user_id ++ "/files/" ++ p.file_hash ++ ".data"

/-- The object-store state: object key → stored bytes. -/
def ObjectStore : Type := List (String × List Nat)

/-- Object lookup (most recent put wins). -/
def storeGet : ObjectStore → String → Option (List Nat)
  | [], _ => none
  | (k, v) :: rest, key => if k = key then some v else storeGet rest key

/-- An S3 `PutObject` request issued to the bucket. -/
inductive StorageEffect where
  | put (key : String) (data : List Nat)
deriving DecidableEq, Repr

/-- `StorageService::upload_file` (storage.rs lines 73–105): build the
content-addressed path and unconditionally issue a `PutObject` with the body;
no existence check precedes the write. Returns the storage path, the new
store state, and the requests issued. -/
def upload_file (store : ObjectStore) (user_id file_hash : String) (data : List Nat) :
    StoragePath × ObjectStore × List StorageEffect :=
  let storage_path : StoragePath := ⟨user_id, file_hash⟩
  (storage_path, (storage_path.full_path, data) :: store,
    [StorageEffect.put storage_path.full_path data])

/-- The upload as the specification sentence describes it (for comparison with
the source's `upload_file`): "On upload, if an object with that key exists,
skip the body write (deduplication)". -/
def upload_file_per_claim (store : ObjectStore) (user_id file_hash : String)
    (data : List Nat) : StoragePath × ObjectStore × List StorageEffect :=
  let storage_path : StoragePath := ⟨user_id, file_hash⟩
  match storeGet store storage_path.full_path with
  | some _ => (storage_path, store, [])
  | none =>
    (storage_path, (storage_path.full_path, data) :: store,
      [StorageEffect.put storage_path.full_path data])

/-- C4 counterexample: with the object already present at its
content-addressed key, the claim demands that the body write be skipped (no
put request), but `upload_file` issues the `PutObject` unconditionally. -/
theorem c4_counterexample_upload_always_puts :
    (storeGet [("users/u1/files/h1.data", [1, 2, 3])] "users/u1/files/h1.data").isSome = true ∧
      (upload_file [("users/u1/files/h1.data", [1, 2, 3])] "u1" "h1" [1, 2, 3]).2.2 =
        [StorageEffect.put "users/u1/files/h1.data" [1, 2, 3]] ∧
      (upload_file_per_claim [("users/u1/files/h1.data", [1, 2, 3])] "u1" "h1" [1, 2, 3]).2.2 =
        [] := by
  refine ⟨by simp [storeGet], ?_, ?_⟩
  · simp [upload_file, StoragePath.full_path]
  · simp [upload_file_per_claim, storeGet, StoragePath.full_path]

/-- C4 (amended): `upload_file` always issues exactly one `PutObject` for the
content-addressed key `users/<user>/files/<hash>.data` — it performs no
existence check and never skips the body write; because the key is
content-addressed, re-uploading the bytes already stored at that key leaves
the store observationally unchanged (the write is idempotent), which is what
makes the missing deduplication harmless. -/
theorem c4_upload_unconditional_write :
    (∀ (store : ObjectStore) (user hash : String) (data : List Nat),
      (upload_file store user hash data).2.2 =
        [StorageEffect.put ("users/" ++ user ++ "/files/" ++ hash ++ ".data") data] ∧
      (upload_file store user hash data).1.full_path =
        "users/" ++ user ++ "/files/" ++ hash ++ ".data" ∧
      storeGet (upload_file store user hash data).2.1
        (StoragePath.full_path ⟨user, hash⟩) = some data) ∧
    (∀ (store : ObjectStore) (user hash : String) (data : List Nat),
      storeGet store (StoragePath.full_path ⟨user, hash⟩) = some data →
        ∀ (k : String),
          storeGet (upload_file store user hash data).2.1 k = storeGet store k) := by
  constructor
  · intro store user hash data
    refine ⟨rfl, rfl, ?_⟩
    simp [upload_file, storeGet]
  · intro store user hash data hstored k
    simp only [upload_file, storeGet]
    by_cases hk : StoragePath.full_path ⟨user, hash⟩ = k
    · rw [if_pos hk, ← hk, hstored]
    · rw [if_neg hk]

/-- C4 witness: re-uploading bytes already stored at their content-addressed
key leaves every lookup unchanged. -/
theorem c4_witness :
    storeGet [("users/u1/files/h1.data", [1, 2, 3])]
        (StoragePath.full_path ⟨"u1", "h1"⟩) = some [1, 2, 3] ∧
      storeGet (upload_file [("users/u1/files/h1.data", [1, 2, 3])] "u1" "h1" [1, 2, 3]).2.1
          "users/u1/files/h1.data" =
        storeGet [("users/u1/files/h1.data", [1, 2, 3])] "users/u1/files/h1.data" :=
  ⟨by simp [storeGet, StoragePath.full_path],
    c4_upload_unconditional_write.2 [("users/u1/files/h1.data", [1, 2, 3])] "u1" "h1"
      [1, 2, 3] (by simp [storeGet, StoragePath.full_path]) "users/u1/files/h1.data"⟩

/-! ## Filesystem event debouncing (src/client/src/watcher.rs) -/

/-- Rust enum `FileEventType` (watcher.rs lines 30–40). -/
inductive FileEventType where
  | Create
  | Modify
  | Remove
  | Rename
deriving DecidableEq, Repr

/-- Discrete-time semantics of the per-path debounce logic
(`EventDeduplicator::add_to_pending`, watcher.rs lines 249–271, and
`spawn_debounce_timer`, lines 274–286), for the events of one path given as
(arrival time, type) pairs in arrival order: each arrival aborts the path's
pending debounce timer and arms a new one firing `delay` ms later; a pending
timer fires — sending its event downstream — exactly when the next arrival
on the path comes no earlier than its deadline (aborting an already-fired
timer is a no-op). The result lists the emitted events with their emission
times. -/
def debounceEmits (delay : Nat) : List (Nat × FileEventType) → List (Nat × FileEventType)
  | [] => []
  | [(t, e)] => [(t + delay, e)]
  | (t1, e1) :: (t2, e2) :: rest =>
    if t2 < t1 + delay then debounceEmits delay ((t2, e2) :: rest)
    else (t1 + delay, e1) :: debounceEmits delay ((t2, e2) :: rest)

/-- C9: for a burst of events on one path in which every event arrives within
`debounce_delay_ms` of the previous one (strictly before the pending timer
fires), exactly one event is emitted downstream: the last of the burst, one
debounce delay after its arrival. -/
theorem c9_debounce_burst_single_emission :
    ∀ (delay : Nat) (events : List (Nat × FileEventType)) (t : Nat) (e : FileEventType),
      List.Chain (fun a b => b.1 < a.1 + delay) (t, e) events →
        debounceEmits delay ((t, e) :: events) =
          [((events.getLastD (t, e)).1 + delay, (events.getLastD (t, e)).2)] := by
  intro delay events
  induction events with
  | nil =>
    intro t e _
    rfl
  | cons p rest ih =>
    intro t e hchain
    obtain ⟨t2, e2⟩ := p
    rw [List.chain_cons] at hchain
    obtain ⟨hlt, hchain⟩ := hchain
    simp only [debounceEmits]
    rw [if_pos hlt]
    rw [ih t2 e2 hchain]
    rw [List.getLastD_cons]

/-- C9 witness: the specification's debounce scenario — create at 0 ms,
modify at 100 ms, modify at 400 ms, with a 500 ms debounce window — emits
exactly one `Modify`, at 900 ms. -/
theorem c9_witness :
    List.Chain (fun a b => b.1 < a.1 + 500) ((0 : Nat), FileEventType.Create)
        [(100, FileEventType.Modify), (400, FileEventType.Modify)] ∧
      debounceEmits 500
          [(0, FileEventType.Create), (100, FileEventType.Modify), (400, FileEventType.Modify)] =
        [(900, FileEventType.Modify)] :=
  ⟨by simp, (c9_debounce_burst_single_emission 500
      [(100, FileEventType.Modify), (400, FileEventType.Modify)] 0 FileEventType.Create
      (by simp)).trans (by simp)⟩

/-! ## Base64 (the base64 crate's BASE64_STANDARD engine, as used by
src/client/src/token.rs)

Bytes are natural numbers below 256. Encoding follows RFC 4648 with padding;
decoding is strict (padding required, non-zero trailing bits rejected),
matching the crate's default engine configuration. -/

/-- The standard base64 alphabet. -/
def b64Alphabet : List Char :=
  "ABCDEFGHIJKLMNOPQRSTUVWXYZabcdefghijklmnopqrstuvwxyz0123456789+/".data

/-- The character encoding a sextet. -/
def encodeChar (n : Nat) : Char := b64Alphabet.getD n '?'

/-- Linear scan used to invert the alphabet. -/
def decodeCharAux : List Char → Nat → Char → Option Nat
  | [], _, _ => none
  | a :: rest, i, c => if a = c then some i else decodeCharAux rest (i + 1) c

/-- The sextet a character decodes to (`none` off the alphabet, in
particular for `=`). -/
def decodeChar (c : Char) : Option Nat := decodeCharAux b64Alphabet 0 c

/-- Base64 encoding with padding. -/
def b64encode : List Nat → List Char
  | a :: b :: c :: rest =>
    encodeChar (a / 4) :: encodeChar ((a % 4) * 16 + b / 16) ::
      encodeChar ((b % 16) * 4 + c / 64) :: encodeChar (c % 64) :: b64encode rest
  | [a, b] =>
    [encodeChar (a / 4), encodeChar ((a % 4) * 16 + b / 16), encodeChar ((b % 16) * 4), '=']
  | [a] => [encodeChar (a / 4), encodeChar ((a % 4) * 16), '=', '=']
  | [] => []

/-- Decode one full quartet of base64 characters into three bytes. -/
def decodeQuartet (c1 c2 c3 c4 : Char) : Option (List Nat) :=
  match decodeChar c1, decodeChar c2, decodeChar c3, decodeChar c4 with
  | some s1, some s2, some s3, some s4 =>
    some [s1 * 4 + s2 / 16, (s2 % 16) * 16 + s3 / 4, (s3 % 4) * 64 + s4]
  | _, _, _, _ => none

/-- Strict base64 decoding: the input must be a sequence of quartets, with
padding only in the final quartet and zero trailing bits. -/
def b64decode : List Char → Option (List Nat)
  | [] => some []
  | c1 :: c2 :: c3 :: c4 :: rest =>
    match rest with
    | r :: rs =>
      match decodeQuartet c1 c2 c3 c4, b64decode (r :: rs) with
      | some bytes, some more => some (bytes ++ more)
      | _, _ => none
    | [] =>
      if c3 = '=' then
        if c4 = '=' then
          match decodeChar c1, decodeChar c2 with
          | some s1, some s2 =>
            if s2 % 16 = 0 then some [s1 * 4 + s2 / 16] else none
          | _, _ => none
        else none
      else if c4 = '=' then
        match decodeChar c1, decodeChar c2, decodeChar c3 with
        | some s1, some s2, some s3 =>
          if s3 % 4 = 0 then some [s1 * 4 + s2 / 16, (s2 % 16) * 16 + s3 / 4] else none
        | _, _, _ => none
      else decodeQuartet c1 c2 c3 c4
  | _ => none

theorem decode_encodeChar : ∀ s, s < 64 → decodeChar (encodeChar s) = some s := by decide

theorem encodeChar_ne_pad : ∀ s, s < 64 → ¬(encodeChar s = '=') := by decide

theorem b64encode_cons_ne_nil (x : Nat) (xs : List Nat) :
    ∃ ch ct, b64encode (x :: xs) = ch :: ct := by
  match xs with
  | [] => exact ⟨_, _, rfl⟩
  | [y] => exact ⟨_, _, rfl⟩
  | y :: z :: rest => exact ⟨_, _, rfl⟩

theorem b64_roundtrip : ∀ (bs : List Nat), (∀ x ∈ bs, x < 256) →
    b64decode (b64encode bs) = some bs
  | [] => fun _ => rfl
  | [a] => fun h => by
    have ha : a < 256 := h a (by simp)
    show b64decode [encodeChar (a / 4), encodeChar ((a % 4) * 16), '=', '='] = some [a]
    simp only [b64decode]
    rw [decode_encodeChar (a / 4) (by omega), decode_encodeChar ((a % 4) * 16) (by omega)]
    have hz : (a % 4) * 16 % 16 = 0 := by omega
    have h1 : a / 4 * 4 + (a % 4) * 16 / 16 = a := by omega
    simp [hz, h1]
    omega
  | [a, b] => fun h => by
    have ha : a < 256 := h a (by simp)
    have hb : b < 256 := h b (by simp)
    show b64decode [encodeChar (a / 4), encodeChar ((a % 4) * 16 + b / 16),
      encodeChar ((b % 16) * 4), '='] = some [a, b]
    simp only [b64decode]
    rw [if_neg (encodeChar_ne_pad ((b % 16) * 4) (by omega))]
    rw [decode_encodeChar (a / 4) (by omega),
      decode_encodeChar ((a % 4) * 16 + b / 16) (by omega),
      decode_encodeChar ((b % 16) * 4) (by omega)]
    have hz : (b % 16) * 4 % 4 = 0 := by omega
    have h1 : a / 4 * 4 + ((a % 4) * 16 + b / 16) / 16 = a := by omega
    have h2 : ((a % 4) * 16 + b / 16) % 16 * 16 + (b % 16) * 4 / 4 = b := by omega
    simp [hz, h1, h2]
    omega
  | a :: b :: c :: rest => fun h => by
    have ha : a < 256 := h a (by simp)
    have hb : b < 256 := h b (by simp)
    have hc : c < 256 := h c (by simp)
    have ih := b64_roundtrip rest (fun x hx => h x (by simp [hx]))
    show b64decode (encodeChar (a / 4) :: encodeChar ((a % 4) * 16 + b / 16) ::
      encodeChar ((b % 16) * 4 + c / 64) :: encodeChar (c % 64) :: b64encode rest) =
      some (a :: b :: c :: rest)
    have hq : decodeQuartet (encodeChar (a / 4)) (encodeChar ((a % 4) * 16 + b / 16))
        (encodeChar ((b % 16) * 4 + c / 64)) (encodeChar (c % 64)) = some [a, b, c] := by
      simp only [decodeQuartet]
      rw [decode_encodeChar (a / 4) (by omega),
        decode_encodeChar ((a % 4) * 16 + b / 16) (by omega),
        decode_encodeChar ((b % 16) * 4 + c / 64) (by omega),
        decode_encodeChar (c % 64) (by omega)]
      have h1 : a / 4 * 4 + ((a % 4) * 16 + b / 16) / 16 = a := by omega
      have h2 : ((a % 4) * 16 + b / 16) % 16 * 16 + ((b % 16) * 4 + c / 64) / 4 = b := by
        omega
      have h3 : ((b % 16) * 4 + c / 64) % 4 * 64 + c % 64 = c := by omega
      simp [h1, h2, h3]
    cases rest with
    | nil =>
      simp only [b64encode, b64decode]
      rw [if_neg (encodeChar_ne_pad ((b % 16) * 4 + c / 64) (by omega))]
      rw [if_neg (encodeChar_ne_pad (c % 64) (by omega))]
      exact hq
    | cons r0 rest0 =>
      obtain ⟨ch, ct, hct⟩ := b64encode_cons_ne_nil r0 rest0
      rw [hct]
      simp only [b64decode]
      rw [← hct, ih, hq]
      simp

/-! ## Token at-rest encryption (src/client/src/token.rs)

The aes-gcm and sha2 crates are external to the repository: the AEAD cipher
is abstracted as a pair of functions over byte lists and SHA-256 as a
function from the passphrase to the 32-byte key; the randomly generated
nonce is an explicit argument. Rust `String` payloads are modelled by their
byte lists (UTF-8 framing is a bijection on the values produced here). -/

/-- An authenticated cipher: key → nonce → plaintext → ciphertext, and
key → nonce → ciphertext → optional plaintext (`none` = tag rejection). -/
structure AeadScheme where
  enc : List Nat → List Nat → List Nat → List Nat
  dec : List Nat → List Nat → List Nat → Option (List Nat)

/-- `TokenManager::derive_key` (token.rs lines 306–317): the 32-byte key is
the SHA-256 digest of the passphrase. -/
def derive_key (sha256 : String → List Nat) (key : String) : List Nat := sha256 key

/-- `TokenManager::encrypt` (token.rs lines 249–273): AES-256-GCM under the
derived key with a random 12-byte nonce, the nonce prepended to the
ciphertext, and the result base64-encoded. -/
def encrypt (A : AeadScheme) (sha256 : String → List Nat) (nonce : List Nat)
    (plaintext : List Nat) (key : String) : String :=
  String.mk (b64encode (nonce ++ A.enc (derive_key sha256 key) nonce plaintext))

/-- The failure modes of `TokenManager::decrypt`. -/
inductive DecryptError where
  | base64Invalid
  | cipherShort
  | decryptFailed
deriving DecidableEq, Repr

/-- `TokenManager::decrypt` (token.rs lines 276–303): base64-decode, fail
with the cipher-short error when fewer than 12 bytes were decoded, split off
the 12-byte nonce, and decrypt the remainder under the derived key. -/
def decrypt (A : AeadScheme) (sha256 : String → List Nat) (ciphertext : String)
    (key : String) : Except DecryptError (List Nat) :=
  match b64decode ciphertext.data with
  | none => Except.error DecryptError.base64Invalid
  | some data =>
    if data.length < 12 then Except.error DecryptError.cipherShort
    else
      match A.dec (derive_key sha256 key) (data.take 12) (data.drop 12) with
      | some plaintext => Except.ok plaintext
      | none => Except.error DecryptError.decryptFailed

/-- C6: token at-rest encryption framing. With the AEAD cipher and hash
abstracted (aes-gcm / sha2 crate code), (1) decrypt∘encrypt restores the
plaintext whenever the cipher restores what it encrypted under the same
derived key (as AES-256-GCM does); (2) decrypting under a passphrase whose
derived key makes the cipher reject (as a different passphrase does, the tag
check failing) yields the decrypt-failed error; (3) every input whose
base64-decoded form is shorter than 12 bytes fails with the cipher-short
error, for any key. -/
theorem c6_token_encrypt_roundtrip :
    (∀ (A : AeadScheme) (sha256 : String → List Nat) (nonce pt : List Nat) (key : String),
      nonce.length = 12 →
      (∀ x ∈ nonce ++ A.enc (derive_key sha256 key) nonce pt, x < 256) →
      A.dec (derive_key sha256 key) nonce (A.enc (derive_key sha256 key) nonce pt) = some pt →
        decrypt A sha256 (encrypt A sha256 nonce pt key) key = Except.ok pt) ∧
    (∀ (A : AeadScheme) (sha256 : String → List Nat) (nonce pt : List Nat) (key key2 : String),
      nonce.length = 12 →
      (∀ x ∈ nonce ++ A.enc (derive_key sha256 key) nonce pt, x < 256) →
      A.dec (derive_key sha256 key2) nonce (A.enc (derive_key sha256 key) nonce pt) = none →
        decrypt A sha256 (encrypt A sha256 nonce pt key) key2 =
          Except.error DecryptError.decryptFailed) ∧
    (∀ (A : AeadScheme) (sha256 : String → List Nat) (s key : String) (data : List Nat),
      b64decode s.data = some data → data.length < 12 →
        decrypt A sha256 s key = Except.error DecryptError.cipherShort) := by
  refine ⟨?_, ?_, ?_⟩
  · intro A sha256 nonce pt key hn hbytes hdec
    have hdata := b64_roundtrip (nonce ++ A.enc (derive_key sha256 key) nonce pt) hbytes
    have hlen : ¬((nonce ++ A.enc (derive_key sha256 key) nonce pt).length < 12) := by
      rw [List.length_append, hn]
      omega
    have htake : (nonce ++ A.enc (derive_key sha256 key) nonce pt).take 12 = nonce := by
      rw [← hn, List.take_left]
    have hdrop : (nonce ++ A.enc (derive_key sha256 key) nonce pt).drop 12 =
        A.enc (derive_key sha256 key) nonce pt := by
      rw [← hn, List.drop_left]
    simp only [decrypt, encrypt, hdata, htake, hdrop, hdec, if_neg hlen]
  · intro A sha256 nonce pt key key2 hn hbytes hdec
    have hdata := b64_roundtrip (nonce ++ A.enc (derive_key sha256 key) nonce pt) hbytes
    have hlen : ¬((nonce ++ A.enc (derive_key sha256 key) nonce pt).length < 12) := by
      rw [List.length_append, hn]
      omega
    have htake : (nonce ++ A.enc (derive_key sha256 key) nonce pt).take 12 = nonce := by
      rw [← hn, List.take_left]
    have hdrop : (nonce ++ A.enc (derive_key sha256 key) nonce pt).drop 12 =
        A.enc (derive_key sha256 key) nonce pt := by
      rw [← hn, List.drop_left]
    simp only [decrypt, encrypt, hdata, htake, hdrop, hdec, if_neg hlen]
  · intro A sha256 s key data hdec hlen
    simp only [decrypt, hdec, if_pos hlen]

/-- A toy authenticated cipher for exercising the framing: the "ciphertext"
is the plaintext followed by the key as a trailing tag; decryption checks the
tag. -/
def tagAead : AeadScheme :=
  { enc := fun k _ p => p ++ k,
    dec := fun k _ c =>
      if c.length ≥ k.length ∧ c.drop (c.length - k.length) = k then
        some (c.take (c.length - k.length))
      else none }

/-- A toy key-derivation stub standing in for SHA-256. -/
def hashStub : String → List Nat :=
  fun s => if s = "k1" then [1, 1, 1, 1] else [2, 2, 2, 2]

/-- C6 witness: the framing instantiated with the toy cipher — a roundtrip
under "k1", a tag rejection under "k2", and the cipher-short error on the
4-character base64 input "AAAA" (3 decoded bytes). -/
theorem c6_witness :
    ((List.replicate 12 0).length = 12 ∧
      (∀ x ∈ List.replicate 12 0 ++
        tagAead.enc (derive_key hashStub "k1") (List.replicate 12 0) [104, 105], x < 256) ∧
      tagAead.dec (derive_key hashStub "k1") (List.replicate 12 0)
        (tagAead.enc (derive_key hashStub "k1") (List.replicate 12 0) [104, 105]) =
          some [104, 105] ∧
      tagAead.dec (derive_key hashStub "k2") (List.replicate 12 0)
        (tagAead.enc (derive_key hashStub "k1") (List.replicate 12 0) [104, 105]) = none ∧
      b64decode ("AAAA" : String).data = some [0, 0, 0] ∧
      ([0, 0, 0] : List Nat).length < 12) ∧
      decrypt tagAead hashStub
          (encrypt tagAead hashStub (List.replicate 12 0) [104, 105] "k1") "k1" =
        Except.ok [104, 105] ∧
      decrypt tagAead hashStub
          (encrypt tagAead hashStub (List.replicate 12 0) [104, 105] "k1") "k2" =
        Except.error DecryptError.decryptFailed ∧
      decrypt tagAead hashStub "AAAA" "k1" = Except.error DecryptError.cipherShort :=
  ⟨⟨by decide, by decide, by decide, by decide, by decide, by decide⟩,
    c6_token_encrypt_roundtrip.1 tagAead hashStub (List.replicate 12 0) [104, 105] "k1"
      (by decide) (by decide) (by decide),
    c6_token_encrypt_roundtrip.2.1 tagAead hashStub (List.replicate 12 0) [104, 105]
      "k1" "k2" (by decide) (by decide) (by decide),
    c6_token_encrypt_roundtrip.2.2 tagAead hashStub "AAAA" "k1" [0, 0, 0]
      (by decide) (by decide)⟩

end AutoSync
